import Mathlib

/-!
Verification development for the Vivarium world engine
(`WorldObject` / `World` classes of `src/main.js`).

The JS object graph is embedded shallowly: objects are records addressed by
their id string, the `Map` entity store is an insertion-ordered association
list with unique keys, JS numbers are rationals, and fallible external
capabilities (the LLM manager) are `Except`-valued parameters.  The
non-deterministic wall-clock field `lastUpdated` is omitted; it is never read
by the engine logic.
-/

namespace Vivarium

/-- Relationship edge record: `{ relationship, to, progress, progressTime,
initialProgress, initialProgressTime }` as pushed by
`WorldObject.addRelationship`.  JS `null` becomes `none`. -/
structure Rel where
  relationship : String
  toId : String
  progress : Option ℚ
  progressTime : Option ℚ
  initialProgress : Option ℚ
  initialProgressTime : Option ℚ
deriving Repr, DecidableEq

/-- One world object of the `WorldObject` class.  `parent` and
`containedObjects` hold entity ids (the JS code holds object references;
ids are unique in the store, so id references are equivalent). -/
structure WorldObject where
  id : String
  name : String
  description : String
  parent : Option String
  containedObjects : List String
  relationships : List Rel
deriving Repr, DecidableEq

/-- The `World` class state: the id-keyed entity store (`Map` with insertion
order), the root object, turn counter and player designation. -/
structure World where
  objects : List (String × WorldObject)
  rootObject : Option String
  simulationTime : ℕ
  playerObjectId : Option String
deriving Repr, DecidableEq

/-- Association-list lookup, the model of `Map.get`. -/
def alookup {β : Type} : List (String × β) → String → Option β
  | [], _ => none
  | (k, v) :: rest, id => if k = id then some v else alookup rest id

/-- Model of `Map.has`. -/
def ahas {β : Type} (m : List (String × β)) (id : String) : Bool :=
  (alookup m id).isSome

/-- Model of `Map.set`: replace in place when the key exists, append
otherwise (JS `Map` keeps the original position on overwrite). -/
def aset {β : Type} (m : List (String × β)) (k : String) (v : β) : List (String × β) :=
  if ahas m k then m.map (fun p => if p.1 = k then (k, v) else p) else m ++ [(k, v)]

/-- Lookup in the world's entity store (`World.getObject`). -/
def mapGet (w : World) (id : String) : Option WorldObject :=
  alookup w.objects id

/-- Membership test in the entity store. -/
def mapHas (w : World) (id : String) : Bool :=
  ahas w.objects id

/-- Key list of the store, in insertion order. -/
def keys (w : World) : List String :=
  w.objects.map Prod.fst

/-- In-place mutation of the object stored under `id`, the model of mutating
a JS object reference that the store owns. -/
def updObj (w : World) (id : String) (f : WorldObject → WorldObject) : World :=
  { w with objects := w.objects.map (fun p => if p.1 = id then (p.1, f p.2) else p) }

/-- Child-list of the object stored under `id` (empty when absent). -/
def childrenOf (w : World) (id : String) : List String :=
  match mapGet w id with
  | some o => o.containedObjects
  | none => []

/-- `WorldObject.removeChild`, lifted to the store: if `c` is listed under
`p`, splice it out (first occurrence) and null `c`'s parent; otherwise do
nothing. -/
def World.removeChild (w : World) (p c : String) : World :=
  if c ∈ childrenOf w p then
    let w1 := updObj w p (fun o => { o with containedObjects := o.containedObjects.erase c })
    updObj w1 c (fun o => { o with parent := none })
  else w

/-- Detach step of `WorldObject.addChild`: when the child currently has a
parent, remove it from that parent first. -/
def addChildPre (w : World) (c : String) : World :=
  match (mapGet w c).bind (fun o => o.parent) with
  | some oldp => World.removeChild w oldp c
  | none => w

/-- `WorldObject.addChild`: detach `c` from its current parent when it has
one, then set `c.parent = p` and push `c` onto `p`'s child list. -/
def World.addChild (w : World) (p c : String) : World :=
  let w1 := addChildPre w c
  let w2 := updObj w1 c (fun o => { o with parent := some p })
  updObj w2 p (fun o => { o with containedObjects := o.containedObjects ++ [c] })

/-- Parent resolution of `World.createObject` and `World.moveObject`:
`parentId ? this.objects.get(parentId) : this.rootObject` (the resolved
object's own id stands for the object reference). -/
def resolveParentRef (w : World) (parentId : Option String) : Option String :=
  match parentId with
  | some pid => (mapGet w pid).map (fun o => o.id)
  | none => w.rootObject

/-- The freshly constructed `WorldObject` of `World.createObject`. -/
def freshObj (w : World) (id name description : String) (parentId : Option String) :
    WorldObject :=
  ⟨id, name, description, resolveParentRef w parentId, [], []⟩

/-- Registration step of `World.createObject`: `this.objects.set(id, obj)`. -/
def insertFresh (w : World) (id name description : String) (parentId : Option String) :
    World :=
  { w with objects := aset w.objects id (freshObj w id name description parentId) }

/-- `World.createObject`: refuse duplicate ids; resolve the parent from
`parentId` (or fall back to the current root); register; then link under the
parent when one resolved, else become root when none exists yet. -/
def World.createObject (w : World) (id name description : String)
    (parentId : Option String) : Option WorldObject × World :=
  if mapHas w id then (none, w)
  else
    match resolveParentRef w parentId with
    | some pid =>
        let w2 := World.addChild (insertFresh w id name description parentId) pid id
        (mapGet w2 id, w2)
    | none =>
        match w.rootObject with
        | none =>
          let w2 : World :=
            { insertFresh w id name description parentId with rootObject := some id }
          (mapGet w2 id, w2)
        | some _ =>
          (mapGet (insertFresh w id name description parentId) id,
            insertFresh w id name description parentId)

/-- `World.moveObject`: resolve the object and the new parent (falling back
to the root), detach from the old parent, reattach.  No cycle check. -/
def World.moveObject (w : World) (objectId : String) (newParentId : Option String) :
    Bool × World :=
  match mapGet w objectId, resolveParentRef w newParentId with
  | some o, some np =>
      let w1 := match o.parent with
        | some oldp => World.removeChild w oldp objectId
        | none => w
      (true, World.addChild w1 np objectId)
  | _, _ => (false, w)

/-- `WorldObject.addRelationship`: drop any edge with the same
(type, target) pair, then append a fresh edge remembering its initial
progress and initial step budget. -/
def WorldObject.addRelationship (o : WorldObject) (relationship targetId : String)
    (progress : Option ℚ) (progressTime : Option ℚ) : WorldObject :=
  let rels := o.relationships.filter
    (fun r => !(r.relationship = relationship ∧ r.toId = targetId : Bool))
  { o with relationships :=
      rels ++ [⟨relationship, targetId, progress, progressTime, progress, progressTime⟩] }

/-- JS truthiness of `rel.progress < 1.0`: `null < 1.0` coerces `null` to
`0` and is `true`. -/
def jsLtOneProg : Option ℚ → Bool
  | none => true
  | some p => decide (p < 1)

/-- One tick of a single relationship edge, the loop body of
`World.progressTimeBasedRelationships`: while steps remain and progress is
below `1.0`, decrement the step counter and recompute progress from the
initial values. -/
def tickRel (r : Rel) : Rel :=
  match r.progressTime with
  | none => r
  | some t =>
    if t > 0 ∧ jsLtOneProg r.progress then
      let pt := t - 1
      match r.initialProgress, r.initialProgressTime with
      | some ip, some ipt =>
        if ipt > 0 then
          let timeElapsed := ipt - pt
          let progressGain := (1 - ip) * (timeElapsed / ipt)
          { r with progressTime := some pt, progress := some (min 1 (ip + progressGain)) }
        else { r with progressTime := some pt }
      | _, _ => { r with progressTime := some pt }
    else r

/-- Tick every relationship a world object owns. -/
def tickObj (o : WorldObject) : WorldObject :=
  { o with relationships := o.relationships.map tickRel }

/-- `World.progressTimeBasedRelationships`: tick every edge of every stored
object once. -/
def World.progressTimeBasedRelationships (w : World) : World :=
  { w with objects := w.objects.map (fun p => (p.1, tickObj p.2)) }

/-- Fuel used for the traversals whose JS originals recurse on the object
graph; one more than the store size always suffices on acyclic stores. -/
def defaultFuel (w : World) : ℕ :=
  w.objects.length + 1

/-- JS `Set.add` on an insertion-ordered set of ids. -/
def sAdd (s : List String) (x : String) : List String :=
  if x ∈ s then s else s ++ [x]

/-- `World.addDescendantsToSet`: add `id` and, recursively, every contained
object to the set. -/
def addDescendantsToSet (w : World) : ℕ → String → List String → List String
  | 0, _, s => s
  | fuel + 1, id, s =>
    let s1 := sAdd s id
    match mapGet w id with
    | none => s1
    | some o => o.containedObjects.foldl (fun acc c => addDescendantsToSet w fuel c acc) s1

/-- The `while (current)` loop of `World.getSimulationBranch`: at each
ancestor, add it together with its whole descendant set, then step to its
parent. -/
def walkUp (w : World) : ℕ → Option String → List String → List String
  | 0, _, s => s
  | _ + 1, none, s => s
  | fuel + 1, some cur, s =>
    let s1 := sAdd s cur
    let s2 := addDescendantsToSet w (defaultFuel w) cur s1
    walkUp w fuel ((mapGet w cur).bind (fun o => o.parent)) s2

/-- `World.getSimulationBranch`: every object from the player's container up
to the root, each taken with its full descendant set. -/
def World.getSimulationBranch (w : World) (playerObject : WorldObject) : List String :=
  walkUp w (defaultFuel w) playerObject.parent []

/-- `World.calculateObjectDepth`: distance from the deepest descendant leaf
(0 for a childless object, `1 + max` of the children otherwise). -/
def calculateObjectDepth (w : World) : ℕ → String → ℕ
  | 0, _ => 0
  | fuel + 1, id =>
    match mapGet w id with
    | none => 0
    | some o =>
      if o.containedObjects.isEmpty then 0
      else (o.containedObjects.map (calculateObjectDepth w fuel)).foldl max 0 + 1

/-- Leading-match test on character lists. -/
def charsPrefixOf : List Char → List Char → Bool
  | [], _ => true
  | _ :: _, [] => false
  | a :: as, b :: bs => a = b && charsPrefixOf as bs

/-- Substring test on character lists. -/
def charsInfixOf (needle : List Char) : List Char → Bool
  | [] => charsPrefixOf needle []
  | b :: bs => charsPrefixOf needle (b :: bs) || charsInfixOf needle bs

/-- JS `s.includes(pat)` substring test. -/
def jsIncludes (s pat : String) : Bool :=
  charsInfixOf pat.data s.data

/-- JS `x || d` on an optional string: `undefined` and `""` both fall back
to the default. -/
def jsOr (x : Option String) (d : String) : String :=
  match x with
  | some v => if v = "" then d else v
  | none => d

/-- Context handed to `llmManager.simulateObjectReaction`. -/
structure ReactionCtx where
  obj : WorldObject
  playerAction : String
  childActions : List String

/-- One entry of the action list handed to
`llmManager.analyzeRelationshipChanges`. -/
structure ObjAction where
  objectName : String
  objectId : String
  action : String

/-- One relationship change proposed by the analysis capability. -/
structure RelChange where
  fromName : String
  toName : String
  relationship : String
  progress : Option ℚ
  progressTime : Option ℚ

/-- One relationship edge as flattened for the narrator. -/
structure NarrRel where
  fromName : String
  relationship : String
  toName : String
  progress : Option ℚ
  progressTime : Option ℚ

/-- Context handed to `llmManager.generateNarrative`. -/
structure NarrationCtx where
  playerAction : String
  parentAction : String
  siblingActions : List (String × String)
  playerName : String
  playerDescription : String
  containerName : String
  containerDescription : String
  relationships : List NarrRel

/-- Context handed to `llmManager.updateObjectDescription`. -/
structure DescCtx where
  name : String
  description : String
  parent : Option String

/-- The external LLM manager: `loaded` models `window.llmManager` being
present, `available` models `isAvailable()`, and each capability may fail
(`Except.error` models a thrown/rejected promise). -/
structure LLM where
  loaded : Bool
  available : Bool
  react : ReactionCtx → Except String String
  analyze : String → List ObjAction → Except String (List RelChange)
  narrate : NarrationCtx → Except String String
  rewrite : DescCtx → String → List (String × String) → Except String String

/-- `World.getBasicReaction`: the deterministic fallback table keyed by
entity id with keyword matching on the action and the child reactions. -/
def getBasicReaction (obj : WorldObject) (playerAction : String)
    (childActions : List String) : String :=
  if obj.id = "cat_tail" then
    if jsIncludes playerAction "turn" || jsIncludes playerAction "wheel" then "twitches nervously"
    else if jsIncludes playerAction "pet" || jsIncludes playerAction "cat" then "flicks with pleasure"
    else "sways gently"
  else if obj.id = "ship_cat" then
    if childActions.any (fun a => jsIncludes a "twitches") then "meows softly"
    else if jsIncludes playerAction "pet" || jsIncludes playerAction "cat" then "purrs and rubs against you"
    else "watches alertly"
  else if obj.id = "wheel" then
    if jsIncludes playerAction "turn" || jsIncludes playerAction "wheel" then "creaks as it turns"
    else if jsIncludes playerAction "touch" || jsIncludes playerAction "hold" then "feels warm under your hands"
    else "holds steady"
  else if obj.id = "boat_1" then
    if childActions.any (fun a => jsIncludes a "creak" || jsIncludes a "turn") then "changes course"
    else if childActions.any (fun a => jsIncludes a "meow") then "rocks gently"
    else "drifts quietly"
  else "remains still"

/-- `World.simulateObject`: gather the already-stored child reactions, echo
the player's literal action for the player, otherwise call the reaction
capability with fallback on error or unavailability. -/
def simulateObject (llm : LLM) (w : World) (obj : WorldObject) (playerAction : String)
    (childResults : List (String × String)) : String :=
  let childActions :=
    (obj.containedObjects.map (fun cid => jsOr (alookup childResults cid) "no action")).filter
      (fun a => a ≠ "no action")
  if some obj.id = w.playerObjectId then playerAction
  else if llm.loaded && llm.available then
    match llm.react ⟨obj, playerAction, childActions⟩ with
    | .ok r => r
    | .error _ => getBasicReaction obj playerAction childActions
  else getBasicReaction obj playerAction childActions

/-- Insert into a descending-sorted list, the model of
`Array.sort((a, b) => b - a)` on the distinct depth keys. -/
def insertDesc (x : ℕ) : List ℕ → List ℕ
  | [] => [x]
  | y :: ys => if x ≥ y then x :: y :: ys else y :: insertDesc x ys

/-- Sort a list of depths in descending order. -/
def sortDesc : List ℕ → List ℕ
  | [] => []
  | x :: xs => insertDesc x (sortDesc xs)

/-- Distinct values in first-occurrence order, the key order of the
`depthGroups` map built by `World.groupObjectsByDepth`. -/
def depthKeys (ds : List ℕ) : List ℕ :=
  ds.foldl (fun acc d => if d ∈ acc then acc else acc ++ [d]) []

/-- One reaction for a branch member looked up in the store.  In the JS
code the branch holds live object references, so the `none` case is
unreachable on store-closed branches. -/
def simulateObjectById (llm : LLM) (w : World) (id : String) (playerAction : String)
    (childResults : List (String × String)) : String :=
  match mapGet w id with
  | some o => simulateObject llm w o playerAction childResults
  | none => ""

/-- The depth-group loop of `World.simulateBottomUp`: each group's
reactions are computed against the results stored so far, then appended. -/
def runGroups (llm : LLM) (w : World) (branch : List String) (playerAction : String) :
    List ℕ → List (String × String) → List (String × String)
  | [], results => results
  | d :: ds, results =>
    let group := branch.filter
      (fun id => calculateObjectDepth w (defaultFuel w) id = d)
    let depthResults := group.map
      (fun id => (id, simulateObjectById llm w id playerAction results))
    runGroups llm w branch playerAction ds (results ++ depthResults)

/-- `World.simulateBottomUp`: group the branch by leaf-distance, order the
depth keys descending (`sort((a, b) => b - a)`), and resolve the groups in
that order. -/
def simulateBottomUp (llm : LLM) (w : World) (branch : List String)
    (playerAction : String) : List (String × String) :=
  let depths := sortDesc (depthKeys
    (branch.map (calculateObjectDepth w (defaultFuel w))))
  runGroups llm w branch playerAction depths []

/-- `World.getObjectByName`: exact id, then lowercased id, then
case-insensitive display name, then case-insensitive id scan. -/
def getObjectByName (w : World) (name : String) : Option WorldObject :=
  let lowerName := name.toLower
  if mapHas w name then mapGet w name
  else if mapHas w lowerName then mapGet w lowerName
  else
    match w.objects.find? (fun p => p.2.name.toLower = lowerName) with
    | some p => some p.2
    | none => (w.objects.find? (fun p => p.1.toLower = lowerName)).map (fun p => p.2)

/-- `World.applyRelationshipChange`: resolve both endpoints by name; when
either is missing the change is dropped; otherwise upsert the edge on the
source object. -/
def World.applyRelationshipChange (w : World) (ch : RelChange) : World :=
  match getObjectByName w ch.fromName, getObjectByName w ch.toName with
  | some src, some tgt =>
      updObj w src.id
        (fun o => o.addRelationship ch.relationship tgt.id ch.progress ch.progressTime)
  | _, _ => w

/-- `World.analyzeAndUpdateRelationships`: skipped without the capability;
otherwise collect the meaningful actions, ask the capability, and apply
each returned change (a failed call changes nothing). -/
def World.analyzeAndUpdateRelationships (llm : LLM) (w : World) (playerAction : String)
    (results : List (String × String)) : World :=
  if !(llm.loaded && llm.available) then w
  else
    let objectActions : List ObjAction := results.filterMap (fun pr =>
      match mapGet w pr.1 with
      | some o =>
        if pr.2 ≠ "remains still" then some ⟨o.name.toLower, pr.1, pr.2⟩ else none
      | none => none)
    if objectActions.isEmpty then w
    else
      match llm.analyze playerAction objectActions with
      | .ok changes => changes.foldl World.applyRelationshipChange w
      | .error _ => w

/-- Flatten one object's relationship list for the narrator, resolving the
target's display name when the target id is present. -/
def narrRelsOf (w : World) (o : WorldObject) : List NarrRel :=
  o.relationships.map (fun r =>
    ⟨o.name, r.relationship,
      (match mapGet w r.toId with
       | some t => t.name
       | none => r.toId),
      r.progress, r.progressTime⟩)

/-- `World.narratePlayerExperience`: sanity-check the player and its
container, assemble the narrative context (parent action, non-trivial
sibling actions, all relationships visible from the player), and call the
required narration capability; a thrown error is surfaced as an error
string, never rethrown. -/
def World.narratePlayerExperience (llm : LLM) (w : World)
    (results : List (String × String)) (playerAction : String) : String :=
  match w.playerObjectId with
  | none => "\nSomething seems wrong - you can\x27t sense yourself.\n"
  | some pid =>
    match mapGet w pid with
    | none => "\nSomething seems wrong - you can\x27t sense yourself.\n"
    | some playerObject =>
      match playerObject.parent.bind (mapGet w) with
      | none => "\nYou float in an empty void.\n"
      | some playerParent =>
        let siblings :=
          (playerParent.containedObjects.filterMap (mapGet w)).filter
            (fun o => o.id ≠ pid)
        let parentAction := jsOr (alookup results playerParent.id) "remains still"
        let siblingActions :=
          (siblings.map (fun s => (s.name, jsOr (alookup results s.id) "remains still"))).filter
            (fun pr => pr.2 ≠ "remains still")
        let allVisible := [playerObject, playerParent] ++ siblings
        let allRelevantRelationships :=
          narrRelsOf w playerObject ++ narrRelsOf w playerParent
            ++ (siblings.map (narrRelsOf w)).flatten
            ++ (allVisible.map (fun o =>
                  ((o.containedObjects.filterMap (mapGet w)).map (narrRelsOf w)).flatten)).flatten
        if ¬ llm.loaded then
          "\n‚ùå LLM Manager not loaded. Check console for errors.\n"
        else
          match llm.narrate ⟨playerAction, parentAction, siblingActions,
              playerObject.name, playerObject.description,
              playerParent.name, playerParent.description,
              allRelevantRelationships⟩ with
          | .ok narrative => narrative
          | .error e =>
            "\n‚ùå Narrative Error: " ++ e
              ++ "\n\nTip: Use checkLLM() to verify your setup.\n"

/-- `World.updateObjectDescriptions`: skipped without the capability; all
rewrite requests are issued against the pre-update state, then the accepted
results (changed text only) are applied. -/
def World.updateObjectDescriptions (llm : LLM) (w : World)
    (results : List (String × String)) : World :=
  if !(llm.loaded && llm.available) then w
  else
    let upds : List (String × String) := results.filterMap (fun pr =>
      match mapGet w pr.1 with
      | none => none
      | some o =>
        if pr.2 ≠ "remains still" then
          let siblingActions : List (String × String) :=
            match o.parent.bind (mapGet w) with
            | some par =>
              par.containedObjects.filterMap (fun sid =>
                if sid ≠ pr.1 then
                  match alookup results sid with
                  | some sa =>
                    if sa ≠ "remains still" then
                      match mapGet w sid with
                      | some sObj => some (sObj.name, sa)
                      | none => none
                    else none
                  | none => none
                else none)
            | none => []
          match llm.rewrite ⟨o.name, o.description, o.parent⟩ pr.2 siblingActions with
          | .ok newDescription =>
            if newDescription ≠ o.description then some (pr.1, newDescription) else none
          | .error _ => none
        else none)
    upds.foldl (fun acc pr => updObj acc pr.1 (fun o => { o with description := pr.2 })) w

/-- `World.processPlayerAction`: reject when no player is set or found;
otherwise advance the turn counter, tick all relationships, compute the
branch, resolve reactions, infer relationship changes, then narrate and
rewrite descriptions.  Returns the final world with the narrative. -/
def World.processPlayerAction (llm : LLM) (w : World) (action : String) : World × String :=
  match w.playerObjectId with
  | none => (w, "No player object set.")
  | some pid =>
    match mapGet w pid with
    | none => (w, "Player object not found.")
    | some playerObject =>
      let w1 : World := { w with simulationTime := w.simulationTime + 1 }
      let w2 := w1.progressTimeBasedRelationships
      let branch := w2.getSimulationBranch playerObject
      let results := simulateBottomUp llm w2 branch action
      let w3 := w2.analyzeAndUpdateRelationships llm action results
      let narrative := w3.narratePlayerExperience llm results action
      let w4 := w3.updateObjectDescriptions llm results
      (w4, narrative)

/-- One entity of the persisted snapshot produced by `World.export`. -/
structure ExportEntry where
  id : String
  name : String
  description : String
  parentId : Option String
  relationships : List Rel
deriving Repr, DecidableEq

/-- The persisted snapshot shape. -/
structure ExportData where
  objects : List ExportEntry
  simulationTime : ℕ
  rootObjectId : Option String
deriving Repr, DecidableEq

/-- `World.export`: flatten every stored object to
(id, name, description, parent id, relationships) plus the turn counter and
root id. -/
def World.exportData (w : World) : ExportData :=
  { objects := w.objects.map (fun p =>
      ⟨p.2.id, p.2.name, p.2.description, p.2.parent, p.2.relationships⟩),
    simulationTime := w.simulationTime,
    rootObjectId := w.rootObject }

/-- First pass of `World.import`: `new WorldObject(id, name, desc)` with no
parent, restoring the relationship list, then `objects.set`. -/
def importCreateStep (acc : World) (e : ExportEntry) : World :=
  { acc with
      objects := aset acc.objects e.id ⟨e.id, e.name, e.description, none, [], e.relationships⟩ }

/-- Second pass of `World.import`: when the entry names a parent and both
ends resolve, wire them with `addChild`. -/
def importLinkStep (acc : World) (e : ExportEntry) : World :=
  match e.parentId with
  | some p =>
    if (mapGet acc e.id).isSome && (mapGet acc p).isSome then World.addChild acc p e.id
    else acc
  | none => acc

/-- `World.import`: clear the store, create every entity parentless and
childless (keeping its relationship list), wire parent links in a second
pass via `addChild`, then re-resolve the root id. -/
def World.importData (w : World) (data : ExportData) : World :=
  let w0 : World := { w with objects := [], simulationTime := data.simulationTime }
  let w1 := data.objects.foldl importCreateStep w0
  let w2 := data.objects.foldl importLinkStep w1
  match data.rootObjectId with
  | some rid => { w2 with rootObject := if mapHas w2 rid then some rid else none }
  | none => w2

/-- The empty world built by the `World` constructor. -/
def emptyWorld : World :=
  { objects := [], rootObject := none, simulationTime := 0, playerObjectId := none }

/-- An LLM manager that is not loaded at all (`window.llmManager`
undefined): every reaction goes through the deterministic fallback. -/
def llmOff : LLM :=
  { loaded := false, available := false,
    react := fun _ => .error "unavailable",
    analyze := fun _ _ => .error "unavailable",
    narrate := fun _ => .error "unavailable",
    rewrite := fun _ _ _ => .error "unavailable" }

/-- The starting scenario built by `initializeWorld`: the ocean, the
island, the dock, the boat with Sam, the wheel and the ship cat (with its
tail), the lighthouse, three seed relationships, and Sam as player. -/
def fixtureWorld : World :=
  let w := emptyWorld
  let w := (w.createObject "ocean" "The Endless Ocean"
    "Dark waters stretch beyond the horizon, dotted with mysterious islands." none).2
  let w := (w.createObject "island_1" "Fog-Shrouded Island"
    "A small landmass wrapped in perpetual mist. Ancient structures peek through the gray veil."
    (some "ocean")).2
  let w := (w.createObject "dock_1" "Weathered Dock"
    "Rotting wooden planks extend into the black water. Something stirs beneath the surface."
    (some "island_1")).2
  let w := (w.createObject "boat_1" "Small Fishing Boat"
    "A humble vessel with nets and basic supplies. Its paint is faded, its wood warped by salt."
    (some "dock_1")).2
  let w := (w.createObject "sam" "Sam"
    "A weathered sailor with knowing eyes. Your hands are calloused from years at sea."
    (some "boat_1")).2
  let w := (w.createObject "wheel" "Steering Wheel"
    "A worn wooden wheel, smooth from countless hands. It responds to the slightest touch."
    (some "boat_1")).2
  let w := (w.createObject "ship_cat" "Ship Cat"
    "A gray tabby with sea-green eyes. It moves with perfect balance despite the rolling waves."
    (some "boat_1")).2
  let w := (w.createObject "cat_tail" "Cat Tail"
    "A gray striped tail that twitches and flicks with feline emotion."
    (some "ship_cat")).2
  let w := (w.createObject "lighthouse_1" "Abandoned Lighthouse"
    "A tall stone tower, its light long extinguished. Strange symbols are carved into its base."
    (some "island_1")).2
  let w := updObj w "boat_1" (fun o => o.addRelationship "docked_at" "dock_1" (some 1) none)
  let w := updObj w "lighthouse_1" (fun o => o.addRelationship "watches_over" "dock_1" none none)
  let w := updObj w "lighthouse_1" (fun o => o.addRelationship "beacon_for" "boat_1" (some (3/10)) none)
  { w with playerObjectId := some "sam" }

/-- Edge record exactly as `addRelationship` appends it. -/
def newRel (relationship targetId : String) (progress progressTime : Option ℚ) : Rel :=
  ⟨relationship, targetId, progress, progressTime, progress, progressTime⟩

/-- Relationship list of the object stored under `id`. -/
def relsAt (w : World) (id : String) : List Rel :=
  match mapGet w id with
  | some o => o.relationships
  | none => []

/-- Numeric progress of an edge (`0` for the `null` sentinel). -/
def progressAt (r : Rel) : ℚ :=
  match r.progress with
  | some p => p
  | none => 0

/-- Closed form of the edge state after `k` ticks of an edge created with
initial progress `P` and step budget `N`. -/
def c2state (rt tgt : String) (P N j : ℚ) : Rel :=
  ⟨rt, tgt, some (min 1 (P + (1 - P) * (j / N))), some (N - j), some P, some N⟩

lemma tickRel_c2state_step (rt tgt : String) (P : ℚ) (N : ℕ) (j : ℕ)
    (hP0 : 0 ≤ P) (hP1 : P < 1) (hN : 1 ≤ N) (hj : j < N) :
    tickRel (c2state rt tgt P (N : ℚ) (j : ℚ)) = c2state rt tgt P (N : ℚ) ((j : ℚ) + 1) := by
  have hNQ : (0 : ℚ) < (N : ℚ) := by exact_mod_cast hN
  have hjN : (j : ℚ) < (N : ℚ) := by exact_mod_cast hj
  have hfrac : (j : ℚ) / (N : ℚ) < 1 := (div_lt_one hNQ).mpr hjN
  have hfrac0 : 0 ≤ (j : ℚ) / (N : ℚ) := by positivity
  have hval : P + (1 - P) * ((j : ℚ) / (N : ℚ)) < 1 := by nlinarith
  have hmin : min 1 (P + (1 - P) * ((j : ℚ) / (N : ℚ))) = P + (1 - P) * ((j : ℚ) / (N : ℚ)) :=
    min_eq_right (le_of_lt hval)
  have hpos : (0 : ℚ) < (N : ℚ) - (j : ℚ) := by linarith
  simp only [c2state, tickRel, hmin, jsLtOneProg]
  rw [if_pos ⟨hpos, by simpa using hval⟩, if_pos hNQ]
  have : (N : ℚ) - ((N : ℚ) - (j : ℚ) - 1) = (j : ℚ) + 1 := by ring
  simp only [this]
  refine Rel.mk.injEq _ _ _ _ _ _ _ _ _ _ _ _ ▸ ?_
  constructor
  · rfl
  constructor
  · rfl
  refine ⟨rfl, by ring_nf, rfl, rfl⟩

lemma tickRel_c2state_fix (rt tgt : String) (P : ℚ) (N : ℕ) (hN : 1 ≤ N) :
    tickRel (c2state rt tgt P (N : ℚ) (N : ℚ)) = c2state rt tgt P (N : ℚ) (N : ℚ) := by
  simp only [c2state, tickRel]
  rw [if_neg]
  simp only [sub_self]
  intro h
  exact absurd h.1 (by norm_num)

lemma tickRel_iterate (rt tgt : String) (P : ℚ) (N : ℕ)
    (hP0 : 0 ≤ P) (hP1 : P < 1) (hN : 1 ≤ N) :
    ∀ k : ℕ, tickRel^[k] (newRel rt tgt (some P) (some (N : ℚ)))
      = c2state rt tgt P (N : ℚ) ((min k N : ℕ) : ℚ) := by
  intro k
  induction k with
  | zero =>
    simp only [Function.iterate_zero, id_eq, newRel, c2state, Nat.min_eq_left (Nat.zero_le N)]
    have : min 1 (P + (1 - P) * ((0 : ℚ) / (N : ℚ))) = P := by
      rw [zero_div, mul_zero, add_zero]
      exact min_eq_right (le_of_lt hP1)
    simp [this]
    exact le_of_lt hP1
  | succ k ih =>
    rw [Function.iterate_succ_apply', ih]
    by_cases hk : k < N
    · rw [Nat.min_eq_left (Nat.le_of_lt hk)]
      rw [tickRel_c2state_step rt tgt P N k hP0 hP1 hN hk]
      rw [Nat.min_eq_left (Nat.succ_le_of_lt hk)]
      norm_num
    · push_neg at hk
      rw [Nat.min_eq_right hk, Nat.min_eq_right (le_trans hk (Nat.le_succ k))]
      exact tickRel_c2state_fix rt tgt P N hN

/-- C2: an edge created with step budget `N > 0` and initial progress
`P ∈ [0, 1)` (a) is appended verbatim by `addRelationship`, (b) is ticked by
every global `progressTimeBasedRelationships` pass, (c) after `k ≤ N` ticks
its progress equals `P + (1 − P) · (k / N)` clamped to `1.0`, (d) each tick
while steps remain strictly increases progress, (e) progress is
non-decreasing tick-over-tick, and (f) after exactly `N` ticks progress
is `1.0`. -/
theorem vivarium_C2_relationship_progress (rt tgt : String) (P : ℚ) (N : ℕ)
    (hP0 : 0 ≤ P) (hP1 : P < 1) (hN : 1 ≤ N) :
    (∀ o : WorldObject,
      (WorldObject.addRelationship o rt tgt (some P) (some (N : ℚ))).relationships.getLast?
        = some (newRel rt tgt (some P) (some (N : ℚ)))) ∧
    (∀ w id, relsAt (World.progressTimeBasedRelationships w) id = (relsAt w id).map tickRel) ∧
    (∀ k : ℕ, k ≤ N → (tickRel^[k] (newRel rt tgt (some P) (some (N : ℚ)))).progress
        = some (min 1 (P + (1 - P) * ((k : ℚ) / (N : ℚ))))) ∧
    (∀ k : ℕ, k < N →
      progressAt (tickRel^[k] (newRel rt tgt (some P) (some (N : ℚ))))
        < progressAt (tickRel^[k + 1] (newRel rt tgt (some P) (some (N : ℚ))))) ∧
    (∀ k : ℕ,
      progressAt (tickRel^[k] (newRel rt tgt (some P) (some (N : ℚ))))
        ≤ progressAt (tickRel^[k + 1] (newRel rt tgt (some P) (some (N : ℚ))))) ∧
    (tickRel^[N] (newRel rt tgt (some P) (some (N : ℚ)))).progress = some 1 := by
  have hNQ : (0 : ℚ) < (N : ℚ) := by exact_mod_cast hN
  have hiter := tickRel_iterate rt tgt P N hP0 hP1 hN
  have hprogAt : ∀ j : ℚ, progressAt (c2state rt tgt P (N : ℚ) j)
      = min 1 (P + (1 - P) * (j / (N : ℚ))) := fun j => rfl
  have hmono : ∀ a b : ℚ, a ≤ b →
      min 1 (P + (1 - P) * (a / (N : ℚ))) ≤ min 1 (P + (1 - P) * (b / (N : ℚ))) := by
    intro a b hab
    refine min_le_min le_rfl ?_
    have hdiv : a / (N : ℚ) ≤ b / (N : ℚ) := by
      rw [div_le_div_iff hNQ hNQ]
      nlinarith
    nlinarith [hP1, hdiv]
  refine ⟨?_, ?_, ?_, ?_, ?_, ?_⟩
  · intro o
    simp [WorldObject.addRelationship, newRel]
  · intro w id
    simp only [relsAt, World.progressTimeBasedRelationships, mapGet]
    induction w.objects with
    | nil => rfl
    | cons p rest ih =>
      by_cases h : p.1 = id
      · simp [alookup, h, tickObj]
      · simpa [alookup, h] using ih
  · intro k hk
    rw [hiter k, Nat.min_eq_left hk]
    rfl
  · intro k hk
    rw [hiter k, hiter (k + 1), Nat.min_eq_left (Nat.le_of_lt hk),
      Nat.min_eq_left (Nat.succ_le_of_lt hk), hprogAt, hprogAt]
    have hjN : (k : ℚ) < (N : ℚ) := by exact_mod_cast hk
    have hfrac : (k : ℚ) / (N : ℚ) < 1 := (div_lt_one hNQ).mpr hjN
    have hfrac0 : 0 ≤ (k : ℚ) / (N : ℚ) := by positivity
    have hval : P + (1 - P) * ((k : ℚ) / (N : ℚ)) < 1 := by nlinarith
    rw [min_eq_right (le_of_lt hval)]
    have hcast : (((k + 1 : ℕ)) : ℚ) = (k : ℚ) + 1 := by push_cast; ring
    rw [hcast, lt_min_iff]
    refine ⟨hval, ?_⟩
    have h1 : (k : ℚ) / (N : ℚ) < ((k : ℚ) + 1) / (N : ℚ) := by
      rw [div_lt_div_iff hNQ hNQ]
      nlinarith
    nlinarith [h1, hP1]
  · intro k
    rw [hiter k, hiter (k + 1), hprogAt, hprogAt]
    apply hmono
    have : min k N ≤ min (k + 1) N := min_le_min (Nat.le_succ k) le_rfl
    exact_mod_cast this
  · rw [hiter N, Nat.min_self]
    have : ((N : ℚ)) / (N : ℚ) = 1 := div_self (ne_of_gt hNQ)
    simp only [c2state, this, mul_one]
    norm_num

/-- Witness for C2 at `P = 0`, `N = 2`. -/
theorem vivarium_C2_witness :
    ((0 : ℚ) ≤ 0 ∧ (0 : ℚ) < 1 ∧ 1 ≤ 2) ∧
    (tickRel^[2] (newRel "opening" "door" (some 0) (some ((2 : ℕ) : ℚ)))).progress = some 1 :=
  ⟨⟨le_refl 0, by norm_num, by norm_num⟩,
    (vivarium_C2_relationship_progress "opening" "door" 0 2 (le_refl 0) (by norm_num)
      (by norm_num)).2.2.2.2.2⟩

/-! Store lemmas: how `alookup`, `keys` and the objects behave under
`updObj` and `aset`. -/

lemma alookup_mapIf {β : Type} (m : List (String × β)) (i j : String) (f : β → β) :
    alookup (m.map (fun p => if p.1 = i then (p.1, f p.2) else p)) j
      = if j = i then (alookup m j).map f else alookup m j := by
  induction m with
  | nil => by_cases h : j = i <;> simp [alookup, h]
  | cons p rest ih =>
    simp only [List.map_cons]
    by_cases hpi : p.1 = i
    · by_cases hpj : p.1 = j
      · have hji : j = i := hpj.symm.trans hpi
        rw [if_pos hpi, alookup, if_pos hpj, if_pos hji, alookup, if_pos hpj]
        rfl
      · have hji : ¬ j = i := fun h => hpj ((hpi.trans h.symm))
        rw [if_pos hpi, alookup, if_neg hpj, ih, if_neg hji, if_neg hji, alookup, if_neg hpj]
    · by_cases hpj : p.1 = j
      · have hji : ¬ j = i := fun h => hpi (hpj.trans h)
        rw [if_neg hpi, alookup, if_pos hpj, if_neg hji, alookup, if_pos hpj]
      · rw [if_neg hpi, alookup, if_neg hpj, ih, alookup, if_neg hpj]

lemma mapGet_updObj (w : World) (i : String) (f : WorldObject → WorldObject) (j : String) :
    mapGet (updObj w i f) j = if j = i then (mapGet w j).map f else mapGet w j := by
  simp only [mapGet, updObj]
  exact alookup_mapIf w.objects i j f

lemma keys_updObj (w : World) (i : String) (f : WorldObject → WorldObject) :
    keys (updObj w i f) = keys w := by
  simp only [keys, updObj, List.map_map]
  apply List.map_congr_left
  intro p _
  by_cases h : p.1 = i <;> simp [h]

lemma rootObject_updObj (w : World) (i : String) (f : WorldObject → WorldObject) :
    (updObj w i f).rootObject = w.rootObject := rfl

lemma simulationTime_updObj (w : World) (i : String) (f : WorldObject → WorldObject) :
    (updObj w i f).simulationTime = w.simulationTime := rfl

lemma alookup_append_single {β : Type} (m : List (String × β)) (k j : String) (v : β) :
    alookup (m ++ [(k, v)]) j
      = match alookup m j with
        | some v0 => some v0
        | none => if j = k then some v else none := by
  induction m with
  | nil => by_cases h : k = j <;> by_cases h2 : j = k <;> simp_all [alookup]
  | cons p rest ih =>
    by_cases hpj : p.1 = j
    · simp [alookup, hpj]
    · simp only [List.cons_append, alookup, if_neg hpj]
      exact ih

lemma alookup_aset {β : Type} (m : List (String × β)) (k j : String) (v : β) :
    alookup (aset m k v) j = if j = k then some v else alookup m j := by
  unfold aset
  by_cases h : ahas m k
  · rw [if_pos h]
    have hmap := alookup_mapIf m k j (fun _ => v)
    have : (m.map (fun p => if p.1 = k then (k, v) else p))
        = (m.map (fun p => if p.1 = k then (p.1, (fun (_ : β) => v) p.2) else p)) := by
      apply List.map_congr_left
      intro p _
      by_cases hp : p.1 = k <;> simp [hp]
    rw [this, hmap]
    by_cases hj : j = k
    · subst hj
      unfold ahas at h
      cases hv : alookup m j with
      | none => rw [hv] at h; simp at h
      | some v0 => simp [hv]
    · simp [hj]
  · rw [if_neg h]
    rw [alookup_append_single]
    by_cases hj : j = k
    · subst hj
      unfold ahas at h
      cases hv : alookup m j with
      | none => simp [hv]
      | some v0 => rw [hv] at h; simp at h
    · cases hv : alookup m j <;> simp [hv, hj]

lemma keys_aset_not_has {β : Type} (m : List (String × β)) (k : String) (v : β)
    (h : ahas m k = false) :
    (aset m k v).map Prod.fst = m.map Prod.fst ++ [k] := by
  unfold aset
  rw [if_neg (by simp [h]), List.map_append]
  rfl

lemma alookup_isSome_iff_mem {β : Type} (m : List (String × β)) (j : String) :
    (alookup m j).isSome = true ↔ j ∈ m.map Prod.fst := by
  induction m with
  | nil => simp [alookup]
  | cons p rest ih =>
    by_cases hpj : p.1 = j
    · simp [alookup, hpj]
    · simp only [alookup, if_neg hpj, List.map_cons, List.mem_cons]
      rw [ih]
      constructor
      · exact Or.inr
      · rintro (h | h)
        · exact absurd h.symm hpj
        · exact h

lemma mem_of_alookup_eq_some {β : Type} (m : List (String × β)) (j : String) (v : β)
    (h : alookup m j = some v) : (j, v) ∈ m := by
  induction m with
  | nil => simp [alookup] at h
  | cons p rest ih =>
    by_cases hpj : p.1 = j
    · rw [alookup, if_pos hpj] at h
      obtain ⟨a, b⟩ := p
      simp only at hpj
      have hb : b = v := Option.some.inj h
      subst hpj
      subst hb
      exact List.mem_cons_self _ _
    · rw [alookup, if_neg hpj] at h
      exact List.mem_cons_of_mem _ (ih h)

lemma alookup_eq_some_of_mem_nodup {β : Type} (m : List (String × β)) (j : String) (v : β)
    (hnd : (m.map Prod.fst).Nodup) (h : (j, v) ∈ m) : alookup m j = some v := by
  induction m with
  | nil => simp at h
  | cons p rest ih =>
    rcases List.mem_cons.mp h with h1 | h1
    · subst h1
      simp [alookup]
    · have hpj : p.1 ≠ j := by
        intro he
        have : j ∈ rest.map Prod.fst := List.mem_map.mpr ⟨(j, v), h1, rfl⟩
        rw [List.map_cons, List.nodup_cons] at hnd
        exact hnd.1 (he ▸ this)
      rw [alookup, if_neg hpj]
      exact ih (List.nodup_cons.mp (by rw [List.map_cons] at hnd; exact hnd)).2 h1

/-! Containment invariant (C4): the decidable entry-level form used in
theorem statements, the lookup-level form used in proofs, and their
equivalence. -/

/-- Containment consistency, quantifying over the stored entries:
unique store keys, key/id agreement, duplicate-free child lists, child
lists only naming stored entities, parent references only naming stored
entities, and the membership characterization `E` listed under `Q` iff
`E.parent = Q`.  The "at most one parent" property of the claim follows:
an entity's listing is determined by its single `parent` field. -/
def ContainedE (w : World) : Prop :=
  (keys w).Nodup ∧
  (∀ p ∈ w.objects, p.2.id = p.1) ∧
  (∀ p ∈ w.objects, p.2.containedObjects.Nodup) ∧
  (∀ p ∈ w.objects, ∀ c ∈ p.2.containedObjects, c ∈ keys w) ∧
  (∀ p ∈ w.objects, ∀ q ∈ p.2.parent.toList, q ∈ keys w) ∧
  (∀ p ∈ w.objects, ∀ q ∈ w.objects, (p.1 ∈ q.2.containedObjects ↔ p.2.parent = some q.1))

/-- The same consistency expressed through store lookups. -/
def ContainedG (w : World) : Prop :=
  (keys w).Nodup ∧
  (∀ x o, mapGet w x = some o → o.id = x) ∧
  (∀ x o, mapGet w x = some o → o.containedObjects.Nodup) ∧
  (∀ x o c, mapGet w x = some o → c ∈ o.containedObjects → (mapGet w c).isSome = true) ∧
  (∀ x o q, mapGet w x = some o → o.parent = some q → (mapGet w q).isSome = true) ∧
  (∀ x o p po, mapGet w x = some o → mapGet w p = some po →
      (x ∈ po.containedObjects ↔ o.parent = some p))

/-- The root reference, when set, names a stored entity. -/
def RootOk (w : World) : Prop :=
  ∀ r ∈ w.rootObject.toList, r ∈ keys w

lemma rootOk_iff (w : World) :
    RootOk w ↔ ∀ r, w.rootObject = some r → r ∈ keys w := by
  unfold RootOk
  cases w.rootObject <;> simp [Option.toList]

/-- The full store invariant the engine maintains. -/
def World.Consistent (w : World) : Prop :=
  ContainedE w ∧ RootOk w

lemma containedE_iff_G (w : World) : ContainedE w ↔ ContainedG w := by
  constructor
  · rintro ⟨hnd, hid, hcnd, hcc, hpc, hiff⟩
    have hmem : ∀ x o, mapGet w x = some o → (x, o) ∈ w.objects :=
      fun x o h => mem_of_alookup_eq_some w.objects x o h
    refine ⟨hnd, ?_, ?_, ?_, ?_, ?_⟩
    · intro x o h
      exact hid (x, o) (hmem x o h)
    · intro x o h
      exact hcnd (x, o) (hmem x o h)
    · intro x o c h hc
      have := hcc (x, o) (hmem x o h) c hc
      exact (alookup_isSome_iff_mem w.objects c).mpr (by simpa [keys] using this)
    · intro x o q h hq
      have := hpc (x, o) (hmem x o h) q (by simp [hq])
      exact (alookup_isSome_iff_mem w.objects q).mpr (by simpa [keys] using this)
    · intro x o p po h hp
      exact hiff (x, o) (hmem x o h) (p, po) (hmem p po hp)
  · rintro ⟨hnd, hid, hcnd, hcc, hpc, hiff⟩
    have hget : ∀ p ∈ w.objects, mapGet w p.1 = some p.2 := by
      intro p hp
      exact alookup_eq_some_of_mem_nodup w.objects p.1 p.2 hnd (by cases p; exact hp)
    refine ⟨hnd, ?_, ?_, ?_, ?_, ?_⟩
    · intro p hp
      exact hid p.1 p.2 (hget p hp)
    · intro p hp
      exact hcnd p.1 p.2 (hget p hp)
    · intro p hp c hc
      have := hcc p.1 p.2 c (hget p hp) hc
      have h2 := (alookup_isSome_iff_mem w.objects c).mp this
      simpa [keys] using h2
    · intro p hp q hq
      have hq2 : p.2.parent = some q := by
        cases hpar : p.2.parent with
        | none => rw [hpar] at hq; simp [Option.toList] at hq
        | some r => rw [hpar] at hq; simp [Option.toList] at hq; rw [hq]
      have := hpc p.1 p.2 q (hget p hp) hq2
      have h2 := (alookup_isSome_iff_mem w.objects q).mp this
      simpa [keys] using h2
    · intro p hp q hq
      exact hiff p.1 p.2 q.1 q.2 (hget p hp) (hget q hq)

/-- Derived form of the claim's "at most one parent at any time": an entity
listed under two stored containers is listed under the same key. -/
lemma contained_at_most_one_parent (w : World) (h : ContainedE w) :
    ∀ x o q1 po1 q2 po2, mapGet w x = some o →
      mapGet w q1 = some po1 → mapGet w q2 = some po2 →
      x ∈ po1.containedObjects → x ∈ po2.containedObjects → q1 = q2 := by
  rw [containedE_iff_G] at h
  intro x o q1 po1 q2 po2 hx h1 h2 hm1 hm2
  have e1 := (h.2.2.2.2.2 x o q1 po1 hx h1).mp hm1
  have e2 := (h.2.2.2.2.2 x o q2 po2 hx h2).mp hm2
  exact Option.some.inj (e1.symm.trans e2)

lemma keys_removeChild (w : World) (p c : String) :
    keys (World.removeChild w p c) = keys w := by
  unfold World.removeChild
  by_cases h : c ∈ childrenOf w p
  · rw [if_pos h, keys_updObj, keys_updObj]
  · rw [if_neg h]

lemma isSome_of_keys_eq {w w' : World} (hk : keys w' = keys w) (y : String) :
    (mapGet w' y).isSome = (mapGet w y).isSome := by
  have h1 := alookup_isSome_iff_mem w'.objects y
  have h2 := alookup_isSome_iff_mem w.objects y
  simp only [keys] at hk
  rw [hk] at h1
  by_cases hmem : y ∈ w.objects.map Prod.fst
  · rw [(show mapGet w' y = alookup w'.objects y from rfl),
      (show mapGet w y = alookup w.objects y from rfl), h1.mpr hmem, h2.mpr hmem]
  · have e1 : (alookup w'.objects y).isSome = false := by
      cases hv : (alookup w'.objects y).isSome
      · rfl
      · exact absurd (h1.mp hv) hmem
    have e2 : (alookup w.objects y).isSome = false := by
      cases hv : (alookup w.objects y).isSome
      · rfl
      · exact absurd (h2.mp hv) hmem
    rw [(show mapGet w' y = alookup w'.objects y from rfl),
      (show mapGet w y = alookup w.objects y from rfl), e1, e2]

lemma removeChild_containedG (w : World) (p c : String) (h : ContainedG w) :
    ContainedG (World.removeChild w p c) := by
  by_cases hmem : c ∈ childrenOf w p
  · obtain ⟨hnd, hid, hcnd, hcc, hpc, hiff⟩ := h
    obtain ⟨po, hgp, hcpo⟩ : ∃ po, mapGet w p = some po ∧ c ∈ po.containedObjects := by
      unfold childrenOf at hmem
      cases hg : mapGet w p with
      | none => rw [hg] at hmem; simp at hmem
      | some po => rw [hg] at hmem; exact ⟨po, rfl, hmem⟩
    have hcs : (mapGet w c).isSome = true := hcc p po c hgp hcpo
    obtain ⟨oc, hgc⟩ := Option.isSome_iff_exists.mp hcs
    have hcp : oc.parent = some p := (hiff c oc p po hgc hgp).mp hcpo
    rw [World.removeChild, if_pos hmem]
    have hkeys : keys (updObj (updObj w p
        (fun o => { o with containedObjects := o.containedObjects.erase c })) c
        (fun o => { o with parent := none })) = keys w := by
      rw [keys_updObj, keys_updObj]
    have hchar : ∀ x o', mapGet (updObj (updObj w p
        (fun o => { o with containedObjects := o.containedObjects.erase c })) c
        (fun o => { o with parent := none })) x = some o' →
        ∃ o0, mapGet w x = some o0 ∧ o'.id = o0.id ∧
          o'.containedObjects
            = (if x = p then o0.containedObjects.erase c else o0.containedObjects) ∧
          o'.parent = (if x = c then none else o0.parent) := by
      intro x o' h'
      rw [mapGet_updObj, mapGet_updObj] at h'
      by_cases hxc : x = c
      · rw [if_pos hxc] at h'
        by_cases hxp : x = p
        · rw [if_pos hxp, Option.map_map] at h'
          obtain ⟨o0, hg0, he⟩ := Option.map_eq_some'.mp h'
          subst he
          refine ⟨o0, hg0, ?_, ?_, ?_⟩
          · simp [Function.comp]
          · rw [if_pos hxp]
            simp [Function.comp]
          · rw [if_pos hxc]
            simp [Function.comp]
        · rw [if_neg hxp] at h'
          obtain ⟨o0, hg0, he⟩ := Option.map_eq_some'.mp h'
          subst he
          refine ⟨o0, hg0, ?_, ?_, ?_⟩
          · simp
          · rw [if_neg hxp]
          · rw [if_pos hxc]
      · rw [if_neg hxc] at h'
        by_cases hxp : x = p
        · rw [if_pos hxp] at h'
          obtain ⟨o0, hg0, he⟩ := Option.map_eq_some'.mp h'
          subst he
          refine ⟨o0, hg0, ?_, ?_, ?_⟩
          · simp
          · rw [if_pos hxp]
          · rw [if_neg hxc]
        · rw [if_neg hxp] at h'
          exact ⟨o', h', rfl, by rw [if_neg hxp], by rw [if_neg hxc]⟩
    refine ⟨by rw [hkeys]; exact hnd, ?_, ?_, ?_, ?_, ?_⟩
    · intro x o' h'
      obtain ⟨o0, hg0, hoid, _, _⟩ := hchar x o' h'
      rw [hoid]
      exact hid x o0 hg0
    · intro x o' h'
      obtain ⟨o0, hg0, _, hoco, _⟩ := hchar x o' h'
      rw [hoco]
      by_cases hxp : x = p
      · rw [if_pos hxp]
        exact (hcnd x o0 hg0).erase c
      · rw [if_neg hxp]
        exact hcnd x o0 hg0
    · intro x o' c' h' hc'
      obtain ⟨o0, hg0, _, hoco, _⟩ := hchar x o' h'
      rw [hoco] at hc'
      have hc0 : c' ∈ o0.containedObjects := by
        by_cases hxp : x = p
        · rw [if_pos hxp] at hc'
          exact List.mem_of_mem_erase hc'
        · rw [if_neg hxp] at hc'
          exact hc'
      rw [isSome_of_keys_eq hkeys]
      exact hcc x o0 c' hg0 hc0
    · intro x o' q h' hq
      obtain ⟨o0, hg0, _, _, hopar⟩ := hchar x o' h'
      rw [hopar] at hq
      by_cases hxc : x = c
      · rw [if_pos hxc] at hq
        exact absurd hq (by simp)
      · rw [if_neg hxc] at hq
        rw [isSome_of_keys_eq hkeys]
        exact hpc x o0 q hg0 hq
    · intro x o' q po' h' hq'
      obtain ⟨o0, hg0, _, _, hopar⟩ := hchar x o' h'
      obtain ⟨po0, hgq0, _, hqco, _⟩ := hchar q po' hq'
      rw [hopar, hqco]
      by_cases hxc : x = c
      · subst hxc
        have hoc : o0 = oc := Option.some.inj (hg0.symm.trans hgc)
        rw [if_pos rfl]
        by_cases hqp : q = p
        · subst hqp
          have hpo : po0 = po := Option.some.inj (hgq0.symm.trans hgp)
          rw [if_pos rfl, hpo]
          constructor
          · intro hin
            exact absurd ((List.Nodup.mem_erase_iff (hcnd q po hgp)).mp hin).1 (by simp)
          · intro hin
            simp at hin
        · rw [if_neg hqp]
          constructor
          · intro hin
            have := (hiff x oc q po0 hgc hgq0).mp hin
            rw [hcp] at this
            exact absurd (Option.some.inj this) (fun hh => hqp hh.symm)
          · intro hin
            simp at hin
      · rw [if_neg hxc]
        by_cases hqp : q = p
        · subst hqp
          have hpo : po0 = po := Option.some.inj (hgq0.symm.trans hgp)
          rw [if_pos rfl, hpo]
          rw [List.mem_erase_of_ne hxc]
          exact hpo ▸ hiff x o0 q po0 hg0 hgq0
        · rw [if_neg hqp]
          exact hiff x o0 q po0 hg0 hgq0
  · rw [World.removeChild, if_neg hmem]
    exact h

/-- No stored object lists `c` among its children. -/
def DetachedG (w : World) (c : String) : Prop :=
  ∀ q po, mapGet w q = some po → c ∉ po.containedObjects

/-- Consistency with the membership characterization exempted for `c`,
which is additionally unlisted: the intermediate state between detaching a
child and re-listing it. -/
def AlmostG (w : World) (c : String) : Prop :=
  (keys w).Nodup ∧
  (∀ x o, mapGet w x = some o → o.id = x) ∧
  (∀ x o, mapGet w x = some o → o.containedObjects.Nodup) ∧
  (∀ x o c', mapGet w x = some o → c' ∈ o.containedObjects → (mapGet w c').isSome = true) ∧
  (∀ x o q, mapGet w x = some o → o.parent = some q → (mapGet w q).isSome = true) ∧
  (∀ x o p po, x ≠ c → mapGet w x = some o → mapGet w p = some po →
      (x ∈ po.containedObjects ↔ o.parent = some p)) ∧
  DetachedG w c

lemma mapGet_removeChild_of_mem (w : World) (p c : String) (hmem : c ∈ childrenOf w p)
    (x : String) :
    mapGet (World.removeChild w p c) x
      = Option.map (fun o0 =>
          { o0 with
            containedObjects :=
              if x = p then o0.containedObjects.erase c else o0.containedObjects,
            parent := if x = c then none else o0.parent })
        (mapGet w x) := by
  rw [World.removeChild, if_pos hmem, mapGet_updObj, mapGet_updObj]
  by_cases hxc : x = c
  · rw [if_pos hxc]
    by_cases hxp : x = p
    · have hcp : c = p := hxc.symm.trans hxp
      rw [if_pos hxp, Option.map_map]
      cases hg : mapGet w x <;> simp [hg, hxc, hxp, hcp, Function.comp]
    · have hcp : ¬ c = p := fun h => hxp (hxc.trans h)
      rw [if_neg hxp]
      cases hg : mapGet w x <;> simp [hg, hxc, hxp, hcp]
  · rw [if_neg hxc]
    by_cases hxp : x = p
    · have hpc2 : ¬ p = c := fun h => hxc (hxp.trans h)
      rw [if_pos hxp]
      cases hg : mapGet w x <;> simp [hg, hxc, hxp, hpc2]
    · rw [if_neg hxp]
      cases hg : mapGet w x <;> simp [hg, hxc, hxp]

lemma removeChild_detached (w : World) (c oldp : String) (oc : WorldObject)
    (h : ContainedG w) (hgc : mapGet w c = some oc) (hcp : oc.parent = some oldp) :
    DetachedG (World.removeChild w oldp c) c := by
  obtain ⟨hnd, hid, hcnd, hcc, hpc, hiff⟩ := h
  have holdp : (mapGet w oldp).isSome = true := hpc c oc oldp hgc hcp
  obtain ⟨po, hgp⟩ := Option.isSome_iff_exists.mp holdp
  have hmem : c ∈ childrenOf w oldp := by
    unfold childrenOf
    rw [hgp]
    exact (hiff c oc oldp po hgc hgp).mpr hcp
  intro q po' hq' hin
  rw [mapGet_removeChild_of_mem w oldp c hmem q] at hq'
  obtain ⟨po0, hq0, hpo'⟩ := Option.map_eq_some'.mp hq'
  subst hpo'
  have hin2 : c ∈ (if q = oldp then po0.containedObjects.erase c else po0.containedObjects) :=
    hin
  by_cases hqo : q = oldp
  · rw [if_pos hqo] at hin2
    exact absurd ((List.Nodup.mem_erase_iff (hcnd q po0 hq0)).mp hin2).1 (by simp)
  · rw [if_neg hqo] at hin2
    have := (hiff c oc q po0 hgc hq0).mp hin2
    rw [hcp] at this
    exact hqo (Option.some.inj this).symm

lemma addChildPre_almost (w : World) (c : String) (h : ContainedG w) :
    AlmostG (addChildPre w c) c ∧ keys (addChildPre w c) = keys w := by
  unfold addChildPre
  cases hb : (mapGet w c).bind (fun o => o.parent) with
  | none =>
    have hdet : DetachedG w c := by
      intro q po hq hin
      cases hg : mapGet w c with
      | none =>
        have := h.2.2.2.1 q po c hq hin
        rw [hg] at this
        simp at this
      | some oc =>
        have hpn : oc.parent = none := by
          rw [hg] at hb
          simpa using hb
        have := (h.2.2.2.2.2 c oc q po hg hq).mp hin
        rw [hpn] at this
        simp at this
    exact ⟨⟨h.1, h.2.1, h.2.2.1, h.2.2.2.1, h.2.2.2.2.1,
      fun x o p po _ hx hp => h.2.2.2.2.2 x o p po hx hp, hdet⟩, rfl⟩
  | some oldp =>
    obtain ⟨oc, hgc, hcp⟩ := Option.bind_eq_some.mp hb
    have hG := removeChild_containedG w oldp c h
    have hdet := removeChild_detached w c oldp oc h hgc hcp
    exact ⟨⟨hG.1, hG.2.1, hG.2.2.1, hG.2.2.2.1, hG.2.2.2.2.1,
      fun x o p po _ hx hp => hG.2.2.2.2.2 x o p po hx hp, hdet⟩,
      keys_removeChild w oldp c⟩

lemma addChildPre_eq_of_detached (w : World) (c : String) (hdet : DetachedG w c) :
    addChildPre w c = w := by
  unfold addChildPre
  cases hb : (mapGet w c).bind (fun o => o.parent) with
  | none => rfl
  | some oldp =>
    show World.removeChild w oldp c = w
    have hnotmem : c ∉ childrenOf w oldp := by
      intro hmemc
      unfold childrenOf at hmemc
      cases hg : mapGet w oldp with
      | none => rw [hg] at hmemc; simp at hmemc
      | some po =>
        rw [hg] at hmemc
        exact hdet oldp po hg hmemc
    rw [World.removeChild, if_neg hnotmem]

lemma keys_addChildPre (w : World) (c : String) :
    keys (addChildPre w c) = keys w := by
  unfold addChildPre
  cases (mapGet w c).bind (fun o => o.parent) with
  | none => rfl
  | some oldp => exact keys_removeChild w oldp c

lemma keys_addChild (w : World) (p c : String) :
    keys (World.addChild w p c) = keys w := by
  show keys (updObj (updObj (addChildPre w c) _ _) _ _) = keys w
  rw [keys_updObj, keys_updObj, keys_addChildPre]

lemma mapGet_addChild_of_detached (w : World) (p c : String) (hdet : DetachedG w c)
    (x : String) :
    mapGet (World.addChild w p c) x
      = Option.map (fun o0 =>
          { o0 with
            containedObjects :=
              if x = p then o0.containedObjects ++ [c] else o0.containedObjects,
            parent := if x = c then some p else o0.parent })
        (mapGet w x) := by
  show mapGet (updObj (updObj (addChildPre w c) _ _) _ _) x = _
  rw [addChildPre_eq_of_detached w c hdet, mapGet_updObj, mapGet_updObj]
  by_cases hxc : x = c
  · rw [if_pos hxc]
    by_cases hxp : x = p
    · have hcp : c = p := hxc.symm.trans hxp
      rw [if_pos hxp, Option.map_map]
      cases hg : mapGet w x <;> simp [hg, hxc, hxp, hcp, Function.comp]
    · have hcp : ¬ c = p := fun h => hxp (hxc.trans h)
      rw [if_neg hxp]
      cases hg : mapGet w x <;> simp [hg, hxc, hxp, hcp]
  · rw [if_neg hxc]
    by_cases hxp : x = p
    · have hpc2 : ¬ p = c := fun h => hxc (hxp.trans h)
      rw [if_pos hxp]
      cases hg : mapGet w x <;> simp [hg, hxc, hxp, hpc2]
    · rw [if_neg hxp]
      cases hg : mapGet w x <;> simp [hg, hxc, hxp]

lemma addChild_containedG_of_almost (w : World) (p c : String) (h : AlmostG w c)
    (hc : (mapGet w c).isSome = true) (hp : (mapGet w p).isSome = true) :
    ContainedG (World.addChild w p c) := by
  obtain ⟨hnd, hid, hcnd, hcc, hpc, hiff, hdet⟩ := h
  have hchar := mapGet_addChild_of_detached w p c hdet
  have hkeys := keys_addChild w p c
  obtain ⟨oc, hgc⟩ := Option.isSome_iff_exists.mp hc
  obtain ⟨opo, hgp⟩ := Option.isSome_iff_exists.mp hp
  refine ⟨by rw [hkeys]; exact hnd, ?_, ?_, ?_, ?_, ?_⟩
  · intro x o' h'
    rw [hchar x] at h'
    obtain ⟨o0, hg0, he⟩ := Option.map_eq_some'.mp h'
    subst he
    exact hid x o0 hg0
  · intro x o' h'
    rw [hchar x] at h'
    obtain ⟨o0, hg0, he⟩ := Option.map_eq_some'.mp h'
    subst he
    show (if x = p then o0.containedObjects ++ [c] else o0.containedObjects).Nodup
    by_cases hxp : x = p
    · rw [if_pos hxp]
      rw [List.nodup_append]
      refine ⟨hcnd x o0 hg0, List.nodup_singleton c, ?_⟩
      intro a ha hac
      have hac2 : a = c := by simpa using hac
      subst hac2
      subst hxp
      have := hdet x o0 hg0
      exact this ha
    · rw [if_neg hxp]
      exact hcnd x o0 hg0
  · intro x o' c' h' hc'
    rw [hchar x] at h'
    obtain ⟨o0, hg0, he⟩ := Option.map_eq_some'.mp h'
    subst he
    have hc'2 : c' ∈ (if x = p then o0.containedObjects ++ [c] else o0.containedObjects) := hc'
    rw [isSome_of_keys_eq hkeys]
    by_cases hxp : x = p
    · rw [if_pos hxp] at hc'2
      rcases List.mem_append.mp hc'2 with hmem | hmem
      · exact hcc x o0 c' hg0 hmem
      · have : c' = c := by simpa using hmem
        subst this
        exact hc
    · rw [if_neg hxp] at hc'2
      exact hcc x o0 c' hg0 hc'2
  · intro x o' q h' hq
    rw [hchar x] at h'
    obtain ⟨o0, hg0, he⟩ := Option.map_eq_some'.mp h'
    subst he
    have hq2 : (if x = c then some p else o0.parent) = some q := hq
    rw [isSome_of_keys_eq hkeys]
    by_cases hxc : x = c
    · rw [if_pos hxc] at hq2
      rw [← Option.some.inj hq2]
      exact hp
    · rw [if_neg hxc] at hq2
      exact hpc x o0 q hg0 hq2
  · intro x o' q po' h' hq'
    rw [hchar x] at h'
    rw [hchar q] at hq'
    obtain ⟨o0, hg0, he⟩ := Option.map_eq_some'.mp h'
    obtain ⟨po0, hgq0, heq⟩ := Option.map_eq_some'.mp hq'
    subst he
    subst heq
    show x ∈ (if q = p then po0.containedObjects ++ [c] else po0.containedObjects)
      ↔ (if x = c then some p else o0.parent) = some q
    by_cases hxc : x = c
    · subst hxc
      rw [if_pos rfl]
      by_cases hqp : q = p
      · subst hqp
        rw [if_pos rfl]
        simp
      · rw [if_neg hqp]
        constructor
        · intro hin
          exact absurd hin (hdet q po0 hgq0)
        · intro hin
          exact absurd (Option.some.inj hin) (fun hh => hqp hh.symm)
    · rw [if_neg hxc]
      by_cases hqp : q = p
      · subst hqp
        rw [if_pos rfl]
        constructor
        · intro hin
          rcases List.mem_append.mp hin with hmem | hmem
          · exact (hiff x o0 q po0 hxc hg0 hgq0).mp hmem
          · exact absurd (by simpa using hmem) hxc
        · intro hin
          exact List.mem_append.mpr (Or.inl ((hiff x o0 q po0 hxc hg0 hgq0).mpr hin))
      · rw [if_neg hqp]
        exact hiff x o0 q po0 hxc hg0 hgq0

lemma addChild_containedG (w : World) (p c : String) (h : ContainedG w)
    (hc : (mapGet w c).isSome = true) (hp : (mapGet w p).isSome = true) :
    ContainedG (World.addChild w p c) := by
  obtain ⟨halmost, hkeys⟩ := addChildPre_almost w c h
  have hdet1 : DetachedG (addChildPre w c) c := halmost.2.2.2.2.2.2
  have heq : World.addChild w p c = World.addChild (addChildPre w c) p c := by
    unfold World.addChild
    rw [addChildPre_eq_of_detached (addChildPre w c) c hdet1]
  rw [heq]
  have hc1 : (mapGet (addChildPre w c) c).isSome = true := by
    rw [isSome_of_keys_eq hkeys]
    exact hc
  have hp1 : (mapGet (addChildPre w c) p).isSome = true := by
    rw [isSome_of_keys_eq hkeys]
    exact hp
  exact addChild_containedG_of_almost (addChildPre w c) p c halmost hc1 hp1

lemma rootObject_removeChild (w : World) (p c : String) :
    (World.removeChild w p c).rootObject = w.rootObject := by
  unfold World.removeChild
  by_cases h : c ∈ childrenOf w p
  · rw [if_pos h]
    rfl
  · rw [if_neg h]

lemma rootObject_addChild (w : World) (p c : String) :
    (World.addChild w p c).rootObject = w.rootObject := by
  show (updObj (updObj (addChildPre w c) _ _) _ _).rootObject = w.rootObject
  rw [rootObject_updObj, rootObject_updObj]
  unfold addChildPre
  cases (mapGet w c).bind (fun o => o.parent) with
  | none => rfl
  | some oldp => exact rootObject_removeChild w oldp c

lemma resolveParentRef_spec (w : World) (pid : Option String)
    (h : ContainedG w) (hroot : RootOk w) :
    ∀ pr, resolveParentRef w pid = some pr → pr ∈ keys w ∧ (mapGet w pr).isSome = true := by
  intro pr hpr
  have hmem : pr ∈ keys w := by
    unfold resolveParentRef at hpr
    cases pid with
    | some pid0 =>
      obtain ⟨o, hg, ho⟩ := Option.map_eq_some'.mp hpr
      have hoid : o.id = pid0 := h.2.1 pid0 o hg
      rw [← ho, hoid]
      have hsome : (alookup w.objects pid0).isSome = true := by
        show (mapGet w pid0).isSome = true
        rw [hg]
        rfl
      have := (alookup_isSome_iff_mem w.objects pid0).mp hsome
      simpa [keys] using this
    | none => exact (rootOk_iff w).mp hroot pr hpr
  refine ⟨hmem, ?_⟩
  exact (alookup_isSome_iff_mem w.objects pr).mpr (by simpa [keys] using hmem)

lemma insertFresh_facts (w : World) (id n d : String) (pid : Option String)
    (hhas : mapHas w id = false) :
    keys (insertFresh w id n d pid) = keys w ++ [id] ∧
    mapGet (insertFresh w id n d pid) id = some (freshObj w id n d pid) ∧
    (∀ x, x ≠ id → mapGet (insertFresh w id n d pid) x = mapGet w x) := by
  have hGet : ∀ x, mapGet (insertFresh w id n d pid) x
      = (if x = id then some (freshObj w id n d pid) else mapGet w x) := by
    intro x
    show alookup (aset w.objects id _) x = _
    rw [alookup_aset]
    rfl
  refine ⟨?_, ?_, ?_⟩
  · show (aset w.objects id _).map Prod.fst = _
    exact keys_aset_not_has w.objects id _ hhas
  · rw [hGet id, if_pos rfl]
  · intro x hx
    rw [hGet x, if_neg hx]

lemma id_not_mem_keys_of_not_has (w : World) (id : String) (hhas : mapHas w id = false) :
    id ∉ keys w := by
  intro hmem
  have := (alookup_isSome_iff_mem w.objects id).mpr (by simpa [keys] using hmem)
  unfold mapHas ahas at hhas
  rw [this] at hhas
  exact absurd hhas (by simp)

lemma insertFresh_almost (w : World) (id n d : String) (pid : Option String)
    (h : ContainedG w) (hhas : mapHas w id = false)
    (hpr : ∀ pr, resolveParentRef w pid = some pr → (mapGet w pr).isSome = true) :
    AlmostG (insertFresh w id n d pid) id := by
  obtain ⟨hnd, hid, hcnd, hcc, hpc, hiff⟩ := h
  obtain ⟨hkeys, hgid, hgold⟩ := insertFresh_facts w id n d pid hhas
  have hnomem : id ∉ keys w := id_not_mem_keys_of_not_has w id hhas
  have hSomeUp : ∀ y, (mapGet w y).isSome = true →
      (mapGet (insertFresh w id n d pid) y).isSome = true := by
    intro y hy
    by_cases hyi : y = id
    · rw [hyi, hgid]
      rfl
    · rw [hgold y hyi]
      exact hy
  have hOldNotIdParent : ∀ x o, mapGet w x = some o → o.parent ≠ some id := by
    intro x o hg hpar
    have := hpc x o id hg hpar
    exact absurd ((alookup_isSome_iff_mem w.objects id).mp this)
      (by simpa [keys] using hnomem)
  have hDetached : DetachedG (insertFresh w id n d pid) id := by
    intro q po hq hin
    by_cases hqi : q = id
    · rw [hqi, hgid] at hq
      have hpo : po = freshObj w id n d pid := (Option.some.inj hq).symm
      rw [hpo] at hin
      simp [freshObj] at hin
    · rw [hgold q hqi] at hq
      have h2 : (alookup w.objects id).isSome = true := hcc q po id hq hin
      unfold mapHas ahas at hhas
      rw [h2] at hhas
      simp at hhas
  refine ⟨?_, ?_, ?_, ?_, ?_, ?_, hDetached⟩
  · rw [hkeys]
    rw [List.nodup_append]
    refine ⟨hnd, List.nodup_singleton id, ?_⟩
    intro a ha hamem
    have : a = id := by simpa using hamem
    subst this
    exact hnomem ha
  · intro x o hg
    by_cases hxi : x = id
    · rw [hxi, hgid] at hg
      rw [← Option.some.inj hg, hxi]
      rfl
    · rw [hgold x hxi] at hg
      exact hid x o hg
  · intro x o hg
    by_cases hxi : x = id
    · rw [hxi, hgid] at hg
      rw [← Option.some.inj hg]
      exact List.nodup_nil
    · rw [hgold x hxi] at hg
      exact hcnd x o hg
  · intro x o c' hg hc'
    by_cases hxi : x = id
    · rw [hxi, hgid] at hg
      rw [← Option.some.inj hg] at hc'
      simp [freshObj] at hc'
    · rw [hgold x hxi] at hg
      exact hSomeUp c' (hcc x o c' hg hc')
  · intro x o q hg hq
    by_cases hxi : x = id
    · rw [hxi, hgid] at hg
      rw [← Option.some.inj hg] at hq
      exact hSomeUp q (hpr q hq)
    · rw [hgold x hxi] at hg
      exact hSomeUp q (hpc x o q hg hq)
  · intro x o q po hxne hg hq
    rw [hgold x hxne] at hg
    by_cases hqi : q = id
    · rw [hqi, hgid] at hq
      rw [← Option.some.inj hq]
      constructor
      · intro hin
        simp [freshObj] at hin
      · intro hin
        rw [hqi] at hin
        exact absurd hin (hOldNotIdParent x o hg)
    · rw [hgold q hqi] at hq
      exact hiff x o q po hg hq

lemma almost_to_containedG (w : World) (c : String) (h : AlmostG w c)
    (hcpar : ∀ o, mapGet w c = some o → o.parent = none) : ContainedG w := by
  obtain ⟨hnd, hid, hcnd, hcc, hpc, hiff, hdet⟩ := h
  refine ⟨hnd, hid, hcnd, hcc, hpc, ?_⟩
  intro x o q po hg hq
  by_cases hxc : x = c
  · subst hxc
    constructor
    · intro hin
      exact absurd hin (hdet q po hq)
    · intro hin
      rw [hcpar o hg] at hin
      exact absurd hin (by simp)
  · exact hiff x o q po hxc hg hq

lemma createObject_consistent (w : World) (id n d : String) (pid : Option String)
    (h : ContainedG w) (hroot : RootOk w) :
    ContainedG (World.createObject w id n d pid).2 ∧
      RootOk (World.createObject w id n d pid).2 := by
  by_cases hhas : mapHas w id = true
  · unfold World.createObject
    rw [if_pos hhas]
    exact ⟨h, hroot⟩
  · have hhasF : mapHas w id = false := by
      revert hhas
      cases mapHas w id <;> simp
    unfold World.createObject
    rw [if_neg hhas]
    obtain ⟨hkeys, hgid, hgold⟩ := insertFresh_facts w id n d pid hhasF
    have hnomem : id ∉ keys w := id_not_mem_keys_of_not_has w id hhasF
    cases hpr : resolveParentRef w pid with
    | some pr =>
      obtain ⟨hprmem, hprsome⟩ := resolveParentRef_spec w pid h hroot pr hpr
      have halmost := insertFresh_almost w id n d pid h hhasF
        (fun pr2 hpr2 => (resolveParentRef_spec w pid h hroot pr2 hpr2).2)
      have hprne : pr ≠ id := fun he => hnomem (he ▸ hprmem)
      have hG := addChild_containedG_of_almost (insertFresh w id n d pid) pr id halmost
        (by rw [hgid]; rfl)
        (by rw [hgold pr hprne]; exact hprsome)
      refine ⟨hG, ?_⟩
      rw [rootOk_iff]
      intro r hr
      rw [rootObject_addChild] at hr
      have hr2 : w.rootObject = some r := hr
      have : r ∈ keys w := (rootOk_iff w).mp hroot r hr2
      rw [keys_addChild, hkeys]
      exact List.mem_append.mpr (Or.inl this)
    | none =>
      have halmost := insertFresh_almost w id n d pid h hhasF
        (fun pr2 hpr2 => (resolveParentRef_spec w pid h hroot pr2 hpr2).2)
      have hparnone : ∀ o, mapGet (insertFresh w id n d pid) id = some o → o.parent = none := by
        intro o hg
        rw [hgid] at hg
        rw [← Option.some.inj hg]
        show resolveParentRef w pid = none
        exact hpr
      have hG1 : ContainedG (insertFresh w id n d pid) :=
        almost_to_containedG _ id halmost hparnone
      cases hwr : w.rootObject with
      | none =>
        dsimp only
        refine ⟨hG1, ?_⟩
        rw [rootOk_iff]
        intro r hr
        have hri : r = id := (Option.some.inj hr).symm
        rw [hri]
        show id ∈ keys (insertFresh w id n d pid)
        rw [hkeys]
        exact List.mem_append.mpr (Or.inr (by simp))
      | some r0 =>
        dsimp only
        refine ⟨hG1, ?_⟩
        rw [rootOk_iff]
        intro r hr
        have hr2 : w.rootObject = some r := hr
        have hrmem : r ∈ keys w := (rootOk_iff w).mp hroot r hr2
        show r ∈ keys (insertFresh w id n d pid)
        rw [hkeys]
        exact List.mem_append.mpr (Or.inl hrmem)

lemma moveObject_consistent (w : World) (oid : String) (npid : Option String)
    (h : ContainedG w) (hroot : RootOk w) :
    ContainedG (World.moveObject w oid npid).2 ∧
      RootOk (World.moveObject w oid npid).2 := by
  unfold World.moveObject
  cases hobj : mapGet w oid with
  | none =>
    cases hpr : resolveParentRef w npid <;> exact ⟨h, hroot⟩
  | some o =>
    cases hpr : resolveParentRef w npid with
    | none => exact ⟨h, hroot⟩
    | some np =>
      obtain ⟨hnpmem, hnpsome⟩ := resolveParentRef_spec w npid h hroot np hpr
      have hG1 : ContainedG (match o.parent with
          | some oldp => World.removeChild w oldp oid
          | none => w) := by
        cases o.parent with
        | some oldp => exact removeChild_containedG w oldp oid h
        | none => exact h
      have hk1 : keys (match o.parent with
          | some oldp => World.removeChild w oldp oid
          | none => w) = keys w := by
        cases o.parent with
        | some oldp => exact keys_removeChild w oldp oid
        | none => rfl
      have hr1 : (match o.parent with
          | some oldp => World.removeChild w oldp oid
          | none => w).rootObject = w.rootObject := by
        cases o.parent with
        | some oldp => exact rootObject_removeChild w oldp oid
        | none => rfl
      constructor
      · apply addChild_containedG _ np oid hG1
        · rw [isSome_of_keys_eq hk1]
          rw [hobj]
          rfl
        · rw [isSome_of_keys_eq hk1]
          exact hnpsome
      · rw [rootOk_iff]
        intro r hr
        rw [rootObject_addChild, hr1] at hr
        rw [keys_addChild, hk1]
        exact (rootOk_iff w).mp hroot r hr

lemma keys_aset_has {β : Type} (m : List (String × β)) (k : String) (v : β)
    (h : ahas m k = true) :
    (aset m k v).map Prod.fst = m.map Prod.fst := by
  unfold aset
  rw [if_pos h, List.map_map]
  apply List.map_congr_left
  intro p _
  by_cases hp : p.1 = k <;> simp [hp]

/-- Every stored object is parentless and childless. -/
def FreshStore (w : World) : Prop :=
  ∀ x o, mapGet w x = some o → o.parent = none ∧ o.containedObjects = []

lemma freshStore_containedG (w : World) (hnd : (keys w).Nodup)
    (hidf : ∀ x o, mapGet w x = some o → o.id = x) (hf : FreshStore w) :
    ContainedG w := by
  refine ⟨hnd, hidf, ?_, ?_, ?_, ?_⟩
  · intro x o hg
    rw [(hf x o hg).2]
    exact List.nodup_nil
  · intro x o c hg hc
    rw [(hf x o hg).2] at hc
    simp at hc
  · intro x o q hg hq
    rw [(hf x o hg).1] at hq
    simp at hq
  · intro x o p po hg hp
    rw [(hf p po hp).2, (hf x o hg).1]
    simp

lemma importPhaseA (es : List ExportEntry) :
    ∀ (acc : World),
      (keys acc).Nodup → (∀ x o, mapGet acc x = some o → o.id = x) → FreshStore acc →
      (keys (es.foldl importCreateStep acc)).Nodup ∧
      (∀ x o, mapGet (es.foldl importCreateStep acc) x = some o → o.id = x) ∧
      FreshStore (es.foldl importCreateStep acc) := by
  induction es with
  | nil => exact fun acc h1 h2 h3 => ⟨h1, h2, h3⟩
  | cons e es ih =>
    intro acc h1 h2 h3
    rw [List.foldl_cons]
    have hGet : ∀ x, mapGet (importCreateStep acc e) x
        = (if x = e.id then some ⟨e.id, e.name, e.description, none, [], e.relationships⟩
           else mapGet acc x) :=
      fun x => alookup_aset acc.objects e.id x _
    apply ih
    · by_cases hh : ahas acc.objects e.id = true
      · have hk : keys (importCreateStep acc e) = keys acc :=
          keys_aset_has acc.objects e.id _ hh
        rw [hk]
        exact h1
      · have hhF : ahas acc.objects e.id = false := by
          revert hh
          cases ahas acc.objects e.id <;> simp
        have hk : keys (importCreateStep acc e) = keys acc ++ [e.id] :=
          keys_aset_not_has acc.objects e.id _ hhF
        rw [hk]
        rw [List.nodup_append]
        refine ⟨h1, List.nodup_singleton _, ?_⟩
        intro a ha hamem
        have ha2 : a = e.id := by simpa using hamem
        subst ha2
        have hsome := (alookup_isSome_iff_mem acc.objects e.id).mpr
          (by simpa [keys] using ha)
        unfold ahas at hhF
        rw [hsome] at hhF
        simp at hhF
    · intro x o hg
      rw [hGet x] at hg
      by_cases hx : x = e.id
      · rw [if_pos hx] at hg
        rw [← Option.some.inj hg, hx]
      · rw [if_neg hx] at hg
        exact h2 x o hg
    · intro x o hg
      rw [hGet x] at hg
      by_cases hx : x = e.id
      · rw [if_pos hx] at hg
        rw [← Option.some.inj hg]
        exact ⟨rfl, rfl⟩
      · rw [if_neg hx] at hg
        exact h3 x o hg

lemma importPhaseB (es : List ExportEntry) :
    ∀ (acc : World), ContainedG acc → ContainedG (es.foldl importLinkStep acc) := by
  induction es with
  | nil => exact fun acc h => h
  | cons e es ih =>
    intro acc h
    rw [List.foldl_cons]
    apply ih
    unfold importLinkStep
    cases e.parentId with
    | none => exact h
    | some p =>
      dsimp only
      by_cases hcond : ((mapGet acc e.id).isSome && (mapGet acc p).isSome) = true
      · rw [if_pos hcond]
        obtain ⟨hc, hp⟩ := Bool.and_eq_true_iff.mp hcond
        exact addChild_containedG acc p e.id h hc hp
      · rw [if_neg hcond]
        exact h

lemma import_containedG (w : World) (d : ExportData) :
    ContainedG (World.importData w d) := by
  unfold World.importData
  have h0 : (keys { w with objects := ([] : List (String × WorldObject)), simulationTime := d.simulationTime }).Nodup :=
    List.nodup_nil
  have hA := importPhaseA d.objects
    { w with objects := [], simulationTime := d.simulationTime } h0
    (fun x o hg => by simp [mapGet, alookup] at hg)
    (fun x o hg => by simp [mapGet, alookup] at hg)
  have hG1 : ContainedG (d.objects.foldl importCreateStep { w with objects := [], simulationTime := d.simulationTime }) :=
    freshStore_containedG _ hA.1 hA.2.1 hA.2.2
  have hG2 := importPhaseB d.objects _ hG1
  cases d.rootObjectId with
  | none => exact hG2
  | some rid =>
    dsimp only
    exact hG2

/-- Bounded ancestor test: walk parent links for at most `fuel` steps and
report whether `y` is reached from `x`. -/
def isAncestorWithin (w : World) : ℕ → String → String → Bool
  | 0, _, _ => false
  | fuel + 1, x, y =>
    match (mapGet w x).bind (fun o => o.parent) with
    | some par => par == y || isAncestorWithin w fuel par y
    | none => false

lemma rootOk_transfer {w w' : World} (hk : keys w' = keys w)
    (hrt : w'.rootObject = w.rootObject) (h : RootOk w) : RootOk w' := by
  rw [rootOk_iff] at h ⊢
  intro r hr
  rw [hrt] at hr
  rw [hk]
  exact h r hr

/-- C4 (amended): `createObject`, `addChild`, `removeChild`, `moveObject`
and `import` all preserve the containment-consistency half of the forest
invariant — at most one parent per entity, duplicate-free child lists, and
`E ∈ parent.containedObjects` iff `parent = E.parent` — but none of them
checks for cycles, so "no entity is its own ancestor" is not preserved
(see the `moveObject` counterexample). -/
theorem vivarium_C4_consistency_preserved :
    (∀ w id n d pid, World.Consistent w →
      World.Consistent (World.createObject w id n d pid).2) ∧
    (∀ w p c, World.Consistent w → (mapGet w p).isSome = true →
      (mapGet w c).isSome = true → World.Consistent (World.addChild w p c)) ∧
    (∀ w p c, World.Consistent w → World.Consistent (World.removeChild w p c)) ∧
    (∀ w oid npid, World.Consistent w → World.Consistent (World.moveObject w oid npid).2) ∧
    (∀ w d, ContainedE (World.importData w d)) ∧
    (∀ w, ContainedE w → ∀ x o q1 po1 q2 po2, mapGet w x = some o →
      mapGet w q1 = some po1 → mapGet w q2 = some po2 →
      x ∈ po1.containedObjects → x ∈ po2.containedObjects → q1 = q2) := by
  refine ⟨?_, ?_, ?_, ?_, ?_, ?_⟩
  · intro w id n d pid h
    obtain ⟨hE, hR⟩ := h
    have hG := (containedE_iff_G w).mp hE
    obtain ⟨hG2, hR2⟩ := createObject_consistent w id n d pid hG hR
    exact ⟨(containedE_iff_G _).mpr hG2, hR2⟩
  · intro w p c h hp hc
    obtain ⟨hE, hR⟩ := h
    have hG := (containedE_iff_G w).mp hE
    refine ⟨(containedE_iff_G _).mpr (addChild_containedG w p c hG hc hp), ?_⟩
    exact rootOk_transfer (keys_addChild w p c) (rootObject_addChild w p c) hR
  · intro w p c h
    obtain ⟨hE, hR⟩ := h
    have hG := (containedE_iff_G w).mp hE
    refine ⟨(containedE_iff_G _).mpr (removeChild_containedG w p c hG), ?_⟩
    exact rootOk_transfer (keys_removeChild w p c) (rootObject_removeChild w p c) hR
  · intro w oid npid h
    obtain ⟨hE, hR⟩ := h
    have hG := (containedE_iff_G w).mp hE
    obtain ⟨hG2, hR2⟩ := moveObject_consistent w oid npid hG hR
    exact ⟨(containedE_iff_G _).mpr hG2, hR2⟩
  · intro w d
    exact (containedE_iff_G _).mpr (import_containedG w d)
  · intro w hE
    exact contained_at_most_one_parent w hE

/-- Three-object chain used to exhibit the missing cycle check. -/
def c4World : World :=
  let w := (emptyWorld.createObject "r" "Root Room" "The root." none).2
  let w := (w.createObject "a" "Crate" "A crate." (some "r")).2
  (w.createObject "b" "Box" "A box inside the crate." (some "a")).2

/-- Counterexample for C4 as stated: on a consistent three-object chain
`r → a → b`, `moveObject "a" "b"` succeeds and afterwards `a` is its own
ancestor (`a.parent = b` and `b.parent = a`), so the operations do not
preserve "no entity is its own ancestor". -/
theorem vivarium_C4_cycle_counterexample :
    World.Consistent c4World ∧
    (World.moveObject c4World "a" (some "b")).1 = true ∧
    isAncestorWithin (World.moveObject c4World "a" (some "b")).2 2 "a" "a" = true := by
  refine ⟨⟨?_, ?_⟩, ?_, ?_⟩
  · unfold ContainedE
    decide
  · unfold RootOk
    decide
  · decide
  · decide

/-- Witness for C4 on the starting scenario. -/
theorem vivarium_C4_witness :
    World.Consistent fixtureWorld ∧
    World.Consistent (World.removeChild fixtureWorld "boat_1" "wheel") ∧
    World.Consistent (World.moveObject fixtureWorld "ship_cat" (some "dock_1")).2 := by
  have hfix : World.Consistent fixtureWorld := by
    constructor
    · unfold ContainedE
      decide
    · unfold RootOk
      decide
  exact ⟨hfix,
    vivarium_C4_consistency_preserved.2.2.1 fixtureWorld "boat_1" "wheel" hfix,
    vivarium_C4_consistency_preserved.2.2.2.1 fixtureWorld "ship_cat" (some "dock_1") hfix⟩

/-- One-object world whose root is `"r"`. -/
def c6World : World :=
  (emptyWorld.createObject "r" "Root Room" "The root." none).2

/-- Counterexample for C6 as stated: with a root present, a successful
`createObject` whose `parentId` resolves to no entity registers the new
entity with no parent, does not list it under any parent, and leaves the
root designation untouched — the entity is neither root nor contained. -/
theorem vivarium_C6_counterexample :
    (World.createObject c6World "x" "Stray" "A stray thing." (some "ghost")).1.isSome = true ∧
    mapGet (World.createObject c6World "x" "Stray" "A stray thing." (some "ghost")).2 "x"
      = some ⟨"x", "Stray", "A stray thing.", none, [], []⟩ ∧
    (World.createObject c6World "x" "Stray" "A stray thing." (some "ghost")).2.rootObject
      = some "r" ∧
    childrenOf (World.createObject c6World "x" "Stray" "A stray thing." (some "ghost")).2 "r"
      = [] := by
  refine ⟨?_, ?_, ?_, ?_⟩ <;> decide

/-- C6 (amended): a successful `createObject` always registers the entity;
when the parent reference resolves it is linked under that parent (parent
field set and listed among the parent's children); when nothing resolves
and no root exists it becomes the root; but when the supplied `parentId`
resolves to no entity while a root exists, the entity is left registered
with no parent and the root unchanged — neither root nor contained. -/
theorem vivarium_C6_create_links (w : World) (id n d : String) (pid : Option String)
    (h : World.Consistent w) (hhas : mapHas w id = false) :
    (World.createObject w id n d pid).1.isSome = true ∧
    (mapGet (World.createObject w id n d pid).2 id).isSome = true ∧
    (∀ pr, resolveParentRef w pid = some pr →
      ∃ o po, mapGet (World.createObject w id n d pid).2 id = some o ∧
        o.parent = some pr ∧
        mapGet (World.createObject w id n d pid).2 pr = some po ∧
        id ∈ po.containedObjects) ∧
    (resolveParentRef w pid = none → w.rootObject = none →
      (World.createObject w id n d pid).2.rootObject = some id) ∧
    (resolveParentRef w pid = none → ∀ r0, w.rootObject = some r0 →
      (World.createObject w id n d pid).2.rootObject = some r0 ∧
      ∃ o, mapGet (World.createObject w id n d pid).2 id = some o ∧ o.parent = none) := by
  obtain ⟨hE, hR⟩ := h
  have hG := (containedE_iff_G w).mp hE
  have hhasne : ¬ mapHas w id = true := by rw [hhas]; simp
  have hnomem : id ∉ keys w := id_not_mem_keys_of_not_has w id hhas
  obtain ⟨hkeys, hgid, hgold⟩ := insertFresh_facts w id n d pid hhas
  have halmost := insertFresh_almost w id n d pid hG hhas
    (fun pr2 hpr2 => (resolveParentRef_spec w pid hG hR pr2 hpr2).2)
  have hdet : DetachedG (insertFresh w id n d pid) id := halmost.2.2.2.2.2.2
  unfold World.createObject
  rw [if_neg hhasne]
  cases hpr : resolveParentRef w pid with
  | some pr =>
    dsimp only
    obtain ⟨hprmem, hprsome⟩ := resolveParentRef_spec w pid hG hR pr hpr
    have hprne : pr ≠ id := fun he => hnomem (he ▸ hprmem)
    have hidpr : ¬ (id = pr) := fun he => hprne he.symm
    have hchar := mapGet_addChild_of_detached (insertFresh w id n d pid) pr id hdet
    have hgetid : mapGet (World.addChild (insertFresh w id n d pid) pr id) id
        = some { freshObj w id n d pid with parent := some pr } := by
      rw [hchar id, hgid]
      simp [hidpr]
    obtain ⟨opr, hgpr⟩ := Option.isSome_iff_exists.mp hprsome
    have hgetpr : mapGet (World.addChild (insertFresh w id n d pid) pr id) pr
        = some { opr with containedObjects := opr.containedObjects ++ [id] } := by
      rw [hchar pr, hgold pr hprne, hgpr]
      simp [hprne]
    refine ⟨?_, ?_, ?_, ?_, ?_⟩
    · rw [hgetid]
      rfl
    · rw [hgetid]
      rfl
    · intro pr2 hpr2
      have hpr2e : pr2 = pr := (Option.some.inj hpr2).symm
      subst hpr2e
      refine ⟨{ freshObj w id n d pid with parent := some pr2 },
        { opr with containedObjects := opr.containedObjects ++ [id] },
        hgetid, rfl, hgetpr, ?_⟩
      exact List.mem_append.mpr (Or.inr (by simp))
    · intro habs
      simp at habs
    · intro habs
      simp at habs
  | none =>
    cases hwr : w.rootObject with
    | none =>
      dsimp only
      refine ⟨?_, ?_, ?_, ?_, ?_⟩
      · show (mapGet { insertFresh w id n d pid with rootObject := some id } id).isSome = true
        show (mapGet (insertFresh w id n d pid) id).isSome = true
        rw [hgid]
        rfl
      · show (mapGet (insertFresh w id n d pid) id).isSome = true
        rw [hgid]
        rfl
      · intro pr2 hpr2
        simp at hpr2
      · intro _ _
        rfl
      · intro _ r0 hr0
        simp at hr0
    | some r0 =>
      dsimp only
      refine ⟨?_, ?_, ?_, ?_, ?_⟩
      · show (mapGet (insertFresh w id n d pid) id).isSome = true
        rw [hgid]
        rfl
      · show (mapGet (insertFresh w id n d pid) id).isSome = true
        rw [hgid]
        rfl
      · intro pr2 hpr2
        simp at hpr2
      · intro _ habs
        simp at habs
      · intro _ r1 hr1
        have hr1e : r1 = r0 := (Option.some.inj hr1).symm
        subst hr1e
        refine ⟨hwr, freshObj w id n d pid, hgid, ?_⟩
        show resolveParentRef w pid = none
        exact hpr

/-- Witness for C6 on the starting scenario. -/
theorem vivarium_C6_witness :
    (World.Consistent fixtureWorld ∧ mapHas fixtureWorld "lantern" = false) ∧
    (World.createObject fixtureWorld "lantern" "Brass Lantern" "A dented brass lantern."
      (some "boat_1")).1.isSome = true := by
  have hfix : World.Consistent fixtureWorld := by
    constructor
    · unfold ContainedE
      decide
    · unfold RootOk
      decide
  have hhas : mapHas fixtureWorld "lantern" = false := by decide
  exact ⟨⟨hfix, hhas⟩,
    (vivarium_C6_create_links fixtureWorld "lantern" "Brass Lantern" "A dented brass lantern."
      (some "boat_1") hfix hhas).1⟩

/-- C8: with no external reaction capability, the deterministic fallback
resolves any object with id `"wheel"` to exactly "creaks as it turns" for
the action "turn the wheel", and any object with id `"boat_1"` to exactly
"changes course" whenever the supplied child reactions contain that wheel
reaction; in the starting scenario, `simulateObject` produces exactly these
strings for the wheel (no child results needed) and for the boat given the
wheel's stored reaction. -/
theorem vivarium_C8_fallback_scenario :
    (∀ (o : WorldObject) (cs : List String), o.id = "wheel" →
      getBasicReaction o "turn the wheel" cs = "creaks as it turns") ∧
    (∀ (o : WorldObject) (act : String) (cs : List String), o.id = "boat_1" →
      "creaks as it turns" ∈ cs → getBasicReaction o act cs = "changes course") ∧
    simulateObjectById llmOff fixtureWorld "wheel" "turn the wheel" []
      = "creaks as it turns" ∧
    simulateObjectById llmOff fixtureWorld "boat_1" "turn the wheel"
      [("wheel", "creaks as it turns")] = "changes course" := by
  refine ⟨?_, ?_, ?_, ?_⟩
  · intro o cs ho
    unfold getBasicReaction
    rw [ho]
    rw [if_neg (by decide), if_neg (by decide), if_pos rfl, if_pos (by decide)]
  · intro o act cs ho hmem
    unfold getBasicReaction
    rw [ho]
    rw [if_neg (by decide), if_neg (by decide), if_neg (by decide), if_pos rfl]
    rw [if_pos]
    exact List.any_eq_true.mpr ⟨"creaks as it turns", hmem, by decide⟩
  · decide
  · decide

/-- Witness for C8 at a literal wheel object. -/
theorem vivarium_C8_witness :
    (WorldObject.mk "wheel" "Steering Wheel" "A worn wooden wheel." (some "boat_1") [] []).id
      = "wheel" ∧
    getBasicReaction
      (WorldObject.mk "wheel" "Steering Wheel" "A worn wooden wheel." (some "boat_1") [] [])
      "turn the wheel" [] = "creaks as it turns" :=
  ⟨rfl, vivarium_C8_fallback_scenario.1
    (WorldObject.mk "wheel" "Steering Wheel" "A worn wooden wheel." (some "boat_1") [] [])
    [] rfl⟩

/-- The reaction branch of the starting scenario for the player `"sam"`. -/
def fixtureBranch : List String :=
  match mapGet fixtureWorld "sam" with
  | some sam => World.getSimulationBranch fixtureWorld sam
  | none => []

/-- C5 (code bug): the depth keys of the branch are sorted descending and
processed in that order, yet the leaf-distance of a container exceeds that
of its children, so containers are resolved FIRST.  Concretely, in the
starting scenario the group order is `[5, 4, 3, 2, 1, 0]` (ocean first,
leaves last), and `boat_1` resolves to "drifts quietly": its children's
reactions (the wheel's "creaks as it turns" among them) are computed only
afterwards and are invisible to it, the opposite of the documented
bottom-up contract. -/
theorem vivarium_C5_order_bug :
    sortDesc (depthKeys (fixtureBranch.map
      (calculateObjectDepth fixtureWorld (defaultFuel fixtureWorld)))) = [5, 4, 3, 2, 1, 0] ∧
    calculateObjectDepth fixtureWorld (defaultFuel fixtureWorld) "boat_1" = 2 ∧
    calculateObjectDepth fixtureWorld (defaultFuel fixtureWorld) "wheel" = 0 ∧
    alookup (simulateBottomUp llmOff fixtureWorld fixtureBranch "turn the wheel") "boat_1"
      = some "drifts quietly" ∧
    alookup (simulateBottomUp llmOff fixtureWorld fixtureBranch "turn the wheel") "wheel"
      = some "creaks as it turns" := by
  set_option maxRecDepth 10000 in
  refine ⟨?_, ?_, ?_, ?_, ?_⟩ <;> decide

lemma subset_sAdd (s : List String) (x : String) : s ⊆ sAdd s x := by
  unfold sAdd
  by_cases h : x ∈ s
  · rw [if_pos h]
    exact List.Subset.refl s
  · rw [if_neg h]
    exact List.subset_append_left s [x]

lemma mem_sAdd_self (s : List String) (x : String) : x ∈ sAdd s x := by
  unfold sAdd
  by_cases h : x ∈ s
  · rw [if_pos h]
    exact h
  · rw [if_neg h]
    exact List.mem_append.mpr (Or.inr (by simp))

lemma subset_foldl_of_step {α β : Type} (step : List α → β → List α)
    (hstep : ∀ s x, s ⊆ step s x) : ∀ (l : List β) (s : List α), s ⊆ l.foldl step s := by
  intro l
  induction l with
  | nil => exact fun s => List.Subset.refl s
  | cons b bs ih =>
    intro s
    rw [List.foldl_cons]
    exact (hstep s b).trans (ih (step s b))

lemma subset_addDescendantsToSet (w : World) :
    ∀ (f : ℕ) (id : String) (s : List String), s ⊆ addDescendantsToSet w f id s := by
  intro f
  induction f with
  | zero => exact fun id s => List.Subset.refl s
  | succ f ih =>
    intro id s
    show s ⊆ (match mapGet w id with
      | none => sAdd s id
      | some o => o.containedObjects.foldl
          (fun acc c => addDescendantsToSet w f c acc) (sAdd s id))
    cases mapGet w id with
    | none => exact subset_sAdd s id
    | some o =>
      exact (subset_sAdd s id).trans
        (subset_foldl_of_step _ (fun s2 c => ih c s2) o.containedObjects (sAdd s id))

lemma mem_addDescendantsToSet_self (w : World) (f : ℕ) (id : String) (s : List String)
    (hf : 1 ≤ f) : id ∈ addDescendantsToSet w f id s := by
  cases f with
  | zero => exact absurd hf (by simp)
  | succ f =>
    show id ∈ (match mapGet w id with
      | none => sAdd s id
      | some o => o.containedObjects.foldl
          (fun acc c => addDescendantsToSet w f c acc) (sAdd s id))
    cases mapGet w id with
    | none => exact mem_sAdd_self s id
    | some o =>
      exact subset_foldl_of_step _ (fun s2 c => subset_addDescendantsToSet w f c s2)
        o.containedObjects (sAdd s id) (mem_sAdd_self s id)

lemma mem_foldl_of_step (step : List String → String → List String) (c : String)
    (hmono : ∀ s x, s ⊆ step s x) (hadd : ∀ s, c ∈ step s c) :
    ∀ (l : List String) (s : List String), c ∈ l → c ∈ l.foldl step s := by
  intro l
  induction l with
  | nil => intro s h; simp at h
  | cons b bs ih =>
    intro s hmem
    rw [List.foldl_cons]
    rcases List.mem_cons.mp hmem with h | h
    · subst h
      exact subset_foldl_of_step step hmono bs (step s c) (hadd s)
    · exact ih (step s b) h

lemma mem_addDescendantsToSet_child (w : World) (f : ℕ) (id c : String) (s : List String)
    (o : WorldObject) (hg : mapGet w id = some o) (hc : c ∈ o.containedObjects)
    (hf : 2 ≤ f) : c ∈ addDescendantsToSet w f id s := by
  cases f with
  | zero => exact absurd hf (by simp)
  | succ f =>
    have hf1 : 1 ≤ f := Nat.lt_of_lt_of_le (by simp) (Nat.succ_le_succ_iff.mp hf)
    show c ∈ (match mapGet w id with
      | none => sAdd s id
      | some o2 => o2.containedObjects.foldl
          (fun acc c2 => addDescendantsToSet w f c2 acc) (sAdd s id))
    rw [hg]
    exact mem_foldl_of_step _ c (fun s2 x => subset_addDescendantsToSet w f x s2)
      (fun s2 => mem_addDescendantsToSet_self w f c s2 hf1) o.containedObjects (sAdd s id) hc

lemma walkUp_succ_some (w : World) (f : ℕ) (cur : String) (s : List String) :
    walkUp w (f + 1) (some cur) s
      = walkUp w f ((mapGet w cur).bind (fun o => o.parent))
          (addDescendantsToSet w (defaultFuel w) cur (sAdd s cur)) := rfl

lemma subset_walkUp (w : World) :
    ∀ (f : ℕ) (cur : Option String) (s : List String), s ⊆ walkUp w f cur s := by
  intro f
  induction f with
  | zero => exact fun cur s => List.Subset.refl s
  | succ f ih =>
    intro cur s
    cases cur with
    | none => exact List.Subset.refl s
    | some c =>
      rw [walkUp_succ_some]
      exact ((subset_sAdd s c).trans
        (subset_addDescendantsToSet w (defaultFuel w) c (sAdd s c))).trans
        (ih _ _)

lemma runGroups_sub_branch (llm : LLM) (w : World) (branch : List String) (a : String) :
    ∀ (ds : List ℕ) (res : List (String × String)),
      (∀ q ∈ res, q.1 ∈ branch) →
      ∀ pr ∈ runGroups llm w branch a ds res, pr.1 ∈ branch := by
  intro ds
  induction ds with
  | nil => exact fun res h => h
  | cons d ds ih =>
    intro res hres
    rw [runGroups]
    apply ih
    intro q hq
    rcases List.mem_append.mp hq with h | h
    · exact hres q h
    · obtain ⟨id, hid, he⟩ := List.mem_map.mp h
      rw [← he]
      exact List.mem_of_mem_filter hid

/-- World with the player nested three levels deep plus an unrelated
subtree hanging off the root. -/
def c1World : World :=
  let w := (emptyWorld.createObject "root" "Root" "The world root." none).2
  let w := (w.createObject "hall" "Hall" "A hall." (some "root")).2
  let w := (w.createObject "box" "Box" "A box in the hall." (some "hall")).2
  let w := (w.createObject "pebble" "Pebble" "A pebble in the box." (some "box")).2
  let w := (w.createObject "faraway" "Far Room" "An unrelated distant room." (some "root")).2
  let w := (w.createObject "trinket" "Trinket" "A trinket in the far room." (some "faraway")).2
  { w with playerObjectId := some "pebble" }

/-- The branch computed for the player of `c1World`. -/
def c1Branch : List String :=
  match mapGet c1World "pebble" with
  | some p => World.getSimulationBranch c1World p
  | none => []

/-- Counterexample for C1 as stated: the player `"pebble"` is nested three
levels deep (`box`, `hall`, `root`), `faraway`/`trinket` form an unrelated
subtree hanging off the root (neither is an ancestor or descendant of the
player), yet both ARE in the computed branch: the upward walk reaches the
root and adds the root's entire descendant set. -/
theorem vivarium_C1_counterexample :
    "faraway" ∈ c1Branch ∧ "trinket" ∈ c1Branch ∧
    isAncestorWithin c1World 6 "pebble" "faraway" = false ∧
    isAncestorWithin c1World 6 "faraway" "pebble" = false := by
  set_option maxRecDepth 10000 in
  refine ⟨?_, ?_, ?_, ?_⟩ <;> decide

/-- C1 (amended): for a player nested three levels deep under distinct
stored containers `c1`, `c2`, `c3`, the branch contains every child of the
container's container's parent `c3` — in particular all siblings of the
player's container's container — and entities never appearing in the
branch never have a reaction resolved for them (every stored reaction is
keyed by a branch member).  The exclusion of subtrees hanging off the root
does NOT hold (see the counterexample): the walk adds every ancestor's
full descendant set, including the root's. -/
theorem vivarium_C1_branch_contents (w : World) (pid : String)
    {player o1 o2 o3 : WorldObject} (c1 c2 c3 : String)
    (hpg : mapGet w pid = some player)
    (hp : player.parent = some c1)
    (h1 : mapGet w c1 = some o1) (hp1 : o1.parent = some c2)
    (h2 : mapGet w c2 = some o2) (hp2 : o2.parent = some c3)
    (h3 : mapGet w c3 = some o3)
    (h12 : c1 ≠ c2) (h13 : c1 ≠ c3) (h23 : c2 ≠ c3) :
    (∀ x ∈ o3.containedObjects, x ∈ World.getSimulationBranch w player) ∧
    (∀ (llm : LLM) (w2 : World) (branch : List String) (action : String),
      ∀ pr ∈ simulateBottomUp llm w2 branch action, pr.1 ∈ branch) := by
  constructor
  · intro x hx
    have hmem : ∀ c ∈ [c1, c2, c3], c ∈ keys w := by
      intro c hc
      have hs : (mapGet w c).isSome = true := by
        rcases List.mem_cons.mp hc with h | h
        · rw [h, h1]; rfl
        rcases List.mem_cons.mp h with h | h
        · rw [h, h2]; rfl
        rcases List.mem_cons.mp h with h | h
        · rw [h, h3]; rfl
        · simp at h
      have := (alookup_isSome_iff_mem w.objects c).mp hs
      simpa [keys] using this
    have hlen : 3 ≤ w.objects.length := by
      have hsub : ({c1, c2, c3} : Finset String) ⊆ (keys w).toFinset := by
        intro y hy
        rw [List.mem_toFinset]
        rcases Finset.mem_insert.mp hy with h | h
        · exact h ▸ hmem c1 (by simp)
        rcases Finset.mem_insert.mp h with h | h
        · exact h ▸ hmem c2 (by simp)
        · rw [Finset.mem_singleton] at h
          exact h ▸ hmem c3 (by simp)
      have hcard : ({c1, c2, c3} : Finset String).card = 3 := by
        rw [Finset.card_insert_of_not_mem (by simp [h12, h13]),
          Finset.card_insert_of_not_mem (by simp [h23]), Finset.card_singleton]
      have hle : 3 ≤ (keys w).toFinset.card := by
        rw [← hcard]
        exact Finset.card_le_card hsub
      have hle2 : (keys w).toFinset.card ≤ (keys w).length := (keys w).toFinset_card_le
      have hkl : (keys w).length = w.objects.length := by
        simp [keys]
      rw [← hkl]
      exact le_trans hle hle2
    have hfuel2 : 2 ≤ defaultFuel w := by
      unfold defaultFuel
      omega
    obtain ⟨m, hm⟩ : ∃ m, defaultFuel w = m + 3 := by
      unfold defaultFuel
      exact ⟨w.objects.length - 2, by omega⟩
    unfold World.getSimulationBranch
    rw [hp, hm]
    rw [show m + 3 = (m + 2) + 1 from rfl, walkUp_succ_some, h1]
    rw [Option.some_bind, hp1]
    rw [show m + 2 = (m + 1) + 1 from rfl, walkUp_succ_some, h2]
    rw [Option.some_bind, hp2]
    rw [walkUp_succ_some, h3]
    exact subset_walkUp w m _ _
      (mem_addDescendantsToSet_child w (defaultFuel w) c3 x _ o3 h3 hx hfuel2)
  · intro llm w2 branch action pr hpr
    exact runGroups_sub_branch llm w2 branch action _ [] (by simp) pr hpr

/-- Witness for C1 in `c1World`: the root's child `"faraway"` (a sibling of
the player's container's container `"hall"`) is in the branch. -/
theorem vivarium_C1_witness :
    (mapGet c1World "pebble").isSome = true ∧
    ∃ p, mapGet c1World "pebble" = some p ∧
      "faraway" ∈ World.getSimulationBranch c1World p := by
  refine ⟨by decide, ?_⟩
  have h := (vivarium_C1_branch_contents c1World "pebble" "box" "hall" "root"
    rfl rfl rfl rfl rfl rfl rfl (by decide) (by decide) (by decide)).1 "faraway" (by decide)
  exact ⟨_, rfl, h⟩

lemma alookup_mapSnd {β : Type} (m : List (String × β)) (g : β → β) (j : String) :
    alookup (m.map (fun p => (p.1, g p.2))) j = (alookup m j).map g := by
  induction m with
  | nil => simp [alookup]
  | cons p rest ih =>
    by_cases hpj : p.1 = j
    · simp [alookup, hpj]
    · simp only [List.map_cons, alookup, if_neg hpj]
      exact ih

lemma mapGet_tick (w : World) (x : String) :
    mapGet (World.progressTimeBasedRelationships w) x = (mapGet w x).map tickObj :=
  alookup_mapSnd w.objects tickObj x

lemma getSimulationBranch_none (w : World) (player : WorldObject)
    (hp : player.parent = none) : World.getSimulationBranch w player = [] := by
  unfold World.getSimulationBranch
  rw [hp]
  rfl

lemma simulateBottomUp_nil (llm : LLM) (w : World) (a : String) :
    simulateBottomUp llm w [] a = [] := rfl

lemma analyze_nil (llm : LLM) (w : World) (a : String) :
    World.analyzeAndUpdateRelationships llm w a [] = w := by
  unfold World.analyzeAndUpdateRelationships
  cases hb : (llm.loaded && llm.available) <;> simp

lemma updateDesc_nil (llm : LLM) (w : World) :
    World.updateObjectDescriptions llm w [] = w := by
  unfold World.updateObjectDescriptions
  cases hb : (llm.loaded && llm.available) <;> simp

lemma narrate_void (llm : LLM) (w : World) (results : List (String × String)) (a : String)
    (pid : String) (player : WorldObject)
    (hpid : w.playerObjectId = some pid) (hg : mapGet w pid = some player)
    (hpp : player.parent = none) :
    World.narratePlayerExperience llm w results a = "\nYou float in an empty void.\n" := by
  unfold World.narratePlayerExperience
  rw [hpid]
  simp only [hg, hpp, Option.none_bind]

/-- C3 (amended): a turn with no registered player id, or with a player id
that resolves to no entity, is rejected with an explanatory error and no
state transition; but a turn whose player entity has no parent is NOT
rejected: the turn counter is incremented and every relationship is ticked
before the narration step reports "You float in an empty void." — a state
transition does occur. -/
theorem vivarium_C3_rejection (llm : LLM) (w : World) (a : String) :
    (w.playerObjectId = none →
      World.processPlayerAction llm w a = (w, "No player object set.")) ∧
    (∀ pid, w.playerObjectId = some pid → mapGet w pid = none →
      World.processPlayerAction llm w a = (w, "Player object not found.")) ∧
    (∀ pid player, w.playerObjectId = some pid → mapGet w pid = some player →
      player.parent = none →
      World.processPlayerAction llm w a
        = (World.progressTimeBasedRelationships { w with simulationTime := w.simulationTime + 1 },
            "\nYou float in an empty void.\n")) := by
  refine ⟨?_, ?_, ?_⟩
  · intro hpid
    unfold World.processPlayerAction
    rw [hpid]
  · intro pid hpid hg
    unfold World.processPlayerAction
    rw [hpid]
    simp only [hg]
  · intro pid player hpid hg hpp
    obtain ⟨obs, rt, st, ppid⟩ := w
    have hpid2 : ppid = some pid := hpid
    subst hpid2
    unfold World.processPlayerAction
    dsimp only
    rw [hg]
    dsimp only
    have hg2 : mapGet (World.progressTimeBasedRelationships
        (World.mk obs rt (st + 1) (some pid))) pid = some (tickObj player) := by
      rw [mapGet_tick]
      have hgx : mapGet (World.mk obs rt (st + 1) (some pid)) pid = some player := hg
      rw [hgx]
      rfl
    have hbranch := getSimulationBranch_none
      (World.progressTimeBasedRelationships (World.mk obs rt (st + 1) (some pid))) player hpp
    rw [hbranch, simulateBottomUp_nil, analyze_nil, updateDesc_nil]
    rw [narrate_void llm _ [] a pid (tickObj player) rfl hg2 hpp]

/-- One-object world whose player is the parentless root. -/
def c3World : World :=
  { (emptyWorld.createObject "p" "Sole Player" "All alone." none).2 with
      playerObjectId := some "p" }

/-- Counterexample for C3 as stated: the player exists but has no parent,
and processing an action does NOT reject the turn without a state
transition — the world changes (the turn counter increments). -/
theorem vivarium_C3_counterexample :
    (mapGet c3World "p").isSome = true ∧
    (mapGet c3World "p").map (fun o => o.parent) = some none ∧
    (World.processPlayerAction llmOff c3World "wait").1 ≠ c3World ∧
    (World.processPlayerAction llmOff c3World "wait").1.simulationTime
      = c3World.simulationTime + 1 ∧
    (World.processPlayerAction llmOff c3World "wait").2 = "\nYou float in an empty void.\n" := by
  refine ⟨?_, ?_, ?_, ?_, ?_⟩ <;> decide

/-- Witness for C3 at a world with no player set. -/
theorem vivarium_C3_witness :
    emptyWorld.playerObjectId = none ∧
    World.processPlayerAction llmOff emptyWorld "wait" = (emptyWorld, "No player object set.") :=
  ⟨rfl, (vivarium_C3_rejection llmOff emptyWorld "wait").1 rfl⟩

lemma simulationTime_applyRelationshipChange (w : World) (ch : RelChange) :
    (World.applyRelationshipChange w ch).simulationTime = w.simulationTime := by
  unfold World.applyRelationshipChange
  cases getObjectByName w ch.fromName with
  | none => rfl
  | some src =>
    cases getObjectByName w ch.toName with
    | none => rfl
    | some tgt => rfl

lemma playerObjectId_applyRelationshipChange (w : World) (ch : RelChange) :
    (World.applyRelationshipChange w ch).playerObjectId = w.playerObjectId := by
  unfold World.applyRelationshipChange
  cases getObjectByName w ch.fromName with
  | none => rfl
  | some src =>
    cases getObjectByName w ch.toName with
    | none => rfl
    | some tgt => rfl

lemma parentMap_applyRelationshipChange (w : World) (ch : RelChange) (x : String) :
    (mapGet (World.applyRelationshipChange w ch) x).map (fun o => o.parent)
      = (mapGet w x).map (fun o => o.parent) := by
  unfold World.applyRelationshipChange
  cases getObjectByName w ch.fromName with
  | none => rfl
  | some src =>
    cases getObjectByName w ch.toName with
    | none => rfl
    | some tgt =>
      rw [mapGet_updObj]
      by_cases hx : x = src.id
      · rw [if_pos hx, Option.map_map]
        cases mapGet w x <;> rfl
      · rw [if_neg hx]

lemma simulationTime_foldl_apply (chs : List RelChange) :
    ∀ w : World, (chs.foldl World.applyRelationshipChange w).simulationTime
      = w.simulationTime := by
  induction chs with
  | nil => exact fun w => rfl
  | cons c cs ih =>
    intro w
    rw [List.foldl_cons, ih, simulationTime_applyRelationshipChange]

lemma playerObjectId_foldl_apply (chs : List RelChange) :
    ∀ w : World, (chs.foldl World.applyRelationshipChange w).playerObjectId
      = w.playerObjectId := by
  induction chs with
  | nil => exact fun w => rfl
  | cons c cs ih =>
    intro w
    rw [List.foldl_cons, ih, playerObjectId_applyRelationshipChange]

lemma parentMap_foldl_apply (chs : List RelChange) :
    ∀ (w : World) (x : String),
      (mapGet (chs.foldl World.applyRelationshipChange w) x).map (fun o => o.parent)
        = (mapGet w x).map (fun o => o.parent) := by
  induction chs with
  | nil => exact fun w x => rfl
  | cons c cs ih =>
    intro w x
    rw [List.foldl_cons, ih, parentMap_applyRelationshipChange]

lemma simulationTime_analyze (llm : LLM) (w : World) (a : String)
    (rs : List (String × String)) :
    (World.analyzeAndUpdateRelationships llm w a rs).simulationTime = w.simulationTime := by
  unfold World.analyzeAndUpdateRelationships
  split
  · rfl
  · dsimp only
    split
    · rfl
    · split
      · exact simulationTime_foldl_apply _ w
      · rfl

lemma playerObjectId_analyze (llm : LLM) (w : World) (a : String)
    (rs : List (String × String)) :
    (World.analyzeAndUpdateRelationships llm w a rs).playerObjectId = w.playerObjectId := by
  unfold World.analyzeAndUpdateRelationships
  split
  · rfl
  · dsimp only
    split
    · rfl
    · split
      · exact playerObjectId_foldl_apply _ w
      · rfl

lemma parentMap_analyze (llm : LLM) (w : World) (a : String)
    (rs : List (String × String)) (x : String) :
    (mapGet (World.analyzeAndUpdateRelationships llm w a rs) x).map (fun o => o.parent)
      = (mapGet w x).map (fun o => o.parent) := by
  unfold World.analyzeAndUpdateRelationships
  split
  · rfl
  · dsimp only
    split
    · rfl
    · split
      · exact parentMap_foldl_apply _ w x
      · rfl

lemma simulationTime_foldl_updDesc (l : List (String × String)) :
    ∀ w : World,
      (l.foldl (fun acc pr => updObj acc pr.1 (fun o => { o with description := pr.2 })) w).simulationTime
        = w.simulationTime := by
  induction l with
  | nil => exact fun w => rfl
  | cons p ps ih =>
    intro w
    rw [List.foldl_cons, ih]
    rfl

lemma simulationTime_updateDesc (llm : LLM) (w : World) (rs : List (String × String)) :
    (World.updateObjectDescriptions llm w rs).simulationTime = w.simulationTime := by
  unfold World.updateObjectDescriptions
  split
  · rfl
  · dsimp only
    exact simulationTime_foldl_updDesc _ w

lemma analyze_unavailable (llm : LLM) (w : World) (a : String)
    (rs : List (String × String)) (h : llm.available = false) :
    World.analyzeAndUpdateRelationships llm w a rs = w := by
  unfold World.analyzeAndUpdateRelationships
  rw [h]
  simp

lemma updateDesc_unavailable (llm : LLM) (w : World) (rs : List (String × String))
    (h : llm.available = false) :
    World.updateObjectDescriptions llm w rs = w := by
  unfold World.updateObjectDescriptions
  rw [h]
  simp

lemma narrate_error (llm : LLM) (w : World) (results : List (String × String))
    (a e pid : String) (player parObj : WorldObject)
    (hpid : w.playerObjectId = some pid) (hg : mapGet w pid = some player)
    (hb : player.parent.bind (mapGet w) = some parObj)
    (hloaded : llm.loaded = true) (hthrow : ∀ ctx, llm.narrate ctx = .error e) :
    World.narratePlayerExperience llm w results a
      = "\n‚ùå Narrative Error: " ++ e
          ++ "\n\nTip: Use checkLLM() to verify your setup.\n" := by
  unfold World.narratePlayerExperience
  rw [hpid]
  simp only [hg, hb]
  rw [if_neg (show ¬ ¬ (llm.loaded = true) from fun hh => hh hloaded)]
  rw [hthrow]

/-- C7: when the narration capability throws, `processPlayerAction` still
completes and returns the surfaced narrative-error string instead of
propagating the exception, the turn counter advance survives, and (when the
reaction/inference capability is unavailable, so no best-effort enrichment
runs) the final world is exactly the relationship-ticked world of step 1 —
the tick is applied, not rolled back. -/
theorem vivarium_C7_narration_failure (llm : LLM) (w : World) (a e : String)
    (pid parId : String) {player : WorldObject}
    (hpid : w.playerObjectId = some pid) (hg : mapGet w pid = some player)
    (hpp : player.parent = some parId) (hgp : (mapGet w parId).isSome = true)
    (hloaded : llm.loaded = true) (hthrow : ∀ ctx, llm.narrate ctx = .error e) :
    ((World.processPlayerAction llm w a).2
      = "\n‚ùå Narrative Error: " ++ e
          ++ "\n\nTip: Use checkLLM() to verify your setup.\n") ∧
    ((World.processPlayerAction llm w a).1.simulationTime = w.simulationTime + 1) ∧
    (llm.available = false →
      (World.processPlayerAction llm w a).1
        = World.progressTimeBasedRelationships
            { w with simulationTime := w.simulationTime + 1 }) := by
  obtain ⟨obs, rt, st, ppid⟩ := w
  have hpid2 : ppid = some pid := hpid
  subst hpid2
  have hred : World.processPlayerAction llm (World.mk obs rt st (some pid)) a
      = ((World.analyzeAndUpdateRelationships llm
            (World.progressTimeBasedRelationships (World.mk obs rt (st + 1) (some pid))) a
            (simulateBottomUp llm
              (World.progressTimeBasedRelationships (World.mk obs rt (st + 1) (some pid)))
              (World.getSimulationBranch
                (World.progressTimeBasedRelationships (World.mk obs rt (st + 1) (some pid)))
                player) a)).updateObjectDescriptions llm
            (simulateBottomUp llm
              (World.progressTimeBasedRelationships (World.mk obs rt (st + 1) (some pid)))
              (World.getSimulationBranch
                (World.progressTimeBasedRelationships (World.mk obs rt (st + 1) (some pid)))
                player) a),
         (World.analyzeAndUpdateRelationships llm
            (World.progressTimeBasedRelationships (World.mk obs rt (st + 1) (some pid))) a
            (simulateBottomUp llm
              (World.progressTimeBasedRelationships (World.mk obs rt (st + 1) (some pid)))
              (World.getSimulationBranch
                (World.progressTimeBasedRelationships (World.mk obs rt (st + 1) (some pid)))
                player) a)).narratePlayerExperience llm
            (simulateBottomUp llm
              (World.progressTimeBasedRelationships (World.mk obs rt (st + 1) (some pid)))
              (World.getSimulationBranch
                (World.progressTimeBasedRelationships (World.mk obs rt (st + 1) (some pid)))
                player) a) a) := by
    unfold World.processPlayerAction
    dsimp only
    rw [hg]
  rw [hred]
  have hgW2 : mapGet (World.progressTimeBasedRelationships
      (World.mk obs rt (st + 1) (some pid))) pid = some (tickObj player) := by
    rw [mapGet_tick]
    have hgx : mapGet (World.mk obs rt (st + 1) (some pid)) pid = some player := hg
    rw [hgx]
    rfl
  obtain ⟨parObjW, hgpW⟩ := Option.isSome_iff_exists.mp hgp
  have hgpW2 : mapGet (World.progressTimeBasedRelationships
      (World.mk obs rt (st + 1) (some pid))) parId = some (tickObj parObjW) := by
    rw [mapGet_tick]
    have hgx : mapGet (World.mk obs rt (st + 1) (some pid)) parId = some parObjW := hgpW
    rw [hgx]
    rfl
  have hpid3 : (World.analyzeAndUpdateRelationships llm
      (World.progressTimeBasedRelationships (World.mk obs rt (st + 1) (some pid))) a
      (simulateBottomUp llm
        (World.progressTimeBasedRelationships (World.mk obs rt (st + 1) (some pid)))
        (World.getSimulationBranch
          (World.progressTimeBasedRelationships (World.mk obs rt (st + 1) (some pid)))
          player) a)).playerObjectId = some pid := by
    rw [playerObjectId_analyze]
    rfl
  have hparmap3 := parentMap_analyze llm
    (World.progressTimeBasedRelationships (World.mk obs rt (st + 1) (some pid))) a
    (simulateBottomUp llm
      (World.progressTimeBasedRelationships (World.mk obs rt (st + 1) (some pid)))
      (World.getSimulationBranch
        (World.progressTimeBasedRelationships (World.mk obs rt (st + 1) (some pid)))
        player) a) pid
  rw [hgW2] at hparmap3
  have hparmap3b : (mapGet (World.analyzeAndUpdateRelationships llm
      (World.progressTimeBasedRelationships (World.mk obs rt (st + 1) (some pid))) a
      (simulateBottomUp llm
        (World.progressTimeBasedRelationships (World.mk obs rt (st + 1) (some pid)))
        (World.getSimulationBranch
          (World.progressTimeBasedRelationships (World.mk obs rt (st + 1) (some pid)))
          player) a)) pid).map (fun o => o.parent) = some (some parId) := by
    rw [hparmap3]
    show some (tickObj player).parent = some (some parId)
    show some player.parent = some (some parId)
    rw [hpp]
  obtain ⟨p3, hg3, hpar3⟩ := Option.map_eq_some'.mp hparmap3b
  have hparmapP := parentMap_analyze llm
    (World.progressTimeBasedRelationships (World.mk obs rt (st + 1) (some pid))) a
    (simulateBottomUp llm
      (World.progressTimeBasedRelationships (World.mk obs rt (st + 1) (some pid)))
      (World.getSimulationBranch
        (World.progressTimeBasedRelationships (World.mk obs rt (st + 1) (some pid)))
        player) a) parId
  rw [hgpW2] at hparmapP
  obtain ⟨parObj3, hgp3, _⟩ := Option.map_eq_some'.mp hparmapP
  have hb3 : p3.parent.bind (mapGet (World.analyzeAndUpdateRelationships llm
      (World.progressTimeBasedRelationships (World.mk obs rt (st + 1) (some pid))) a
      (simulateBottomUp llm
        (World.progressTimeBasedRelationships (World.mk obs rt (st + 1) (some pid)))
        (World.getSimulationBranch
          (World.progressTimeBasedRelationships (World.mk obs rt (st + 1) (some pid)))
          player) a))) = some parObj3 := by
    rw [hpar3, Option.some_bind]
    exact hgp3
  refine ⟨?_, ?_, ?_⟩
  · exact narrate_error llm _ _ a e pid p3 parObj3 hpid3 hg3 hb3 hloaded hthrow
  · rw [simulationTime_updateDesc, simulationTime_analyze]
    rfl
  · intro havail
    rw [updateDesc_unavailable _ _ _ havail, analyze_unavailable _ _ _ _ havail]

/-- An LLM manager that is loaded but whose narration call always throws
and whose `isAvailable()` is false. -/
def llmNarrateThrows : LLM :=
  { loaded := true, available := false,
    react := fun _ => .error "unavailable",
    analyze := fun _ _ => .error "unavailable",
    narrate := fun _ => .error "Connection refused",
    rewrite := fun _ _ _ => .error "unavailable" }

/-- Witness for C7 on the starting scenario. -/
theorem vivarium_C7_witness :
    (fixtureWorld.playerObjectId = some "sam" ∧ llmNarrateThrows.loaded = true) ∧
    (World.processPlayerAction llmNarrateThrows fixtureWorld "look around").2
      = "\n‚ùå Narrative Error: " ++ "Connection refused"
          ++ "\n\nTip: Use checkLLM() to verify your setup.\n" := by
  refine ⟨⟨rfl, rfl⟩, ?_⟩
  exact (vivarium_C7_narration_failure llmNarrateThrows fixtureWorld "look around"
    "Connection refused" "sam" "boat_1" rfl rfl rfl (by decide) rfl (fun _ => rfl)).1

/-- The parentless object created for an entry by import's first pass. -/
def freshOf (e : ExportEntry) : WorldObject :=
  ⟨e.id, e.name, e.description, none, [], e.relationships⟩

/-- First snapshot entry carrying a given id. -/
def entryFind (es : List ExportEntry) (x : String) : Option ExportEntry :=
  es.find? (fun e => e.id = x)

/-- Parent id assigned to `x` after linking the given entries. -/
def paOf (es : List ExportEntry) (x : String) : Option String :=
  match entryFind es x with
  | some e => e.parentId
  | none => none

/-- Child ids accumulated under `x` after linking the given entries. -/
def caOf (es : List ExportEntry) (x : String) : List String :=
  (es.filter (fun e => e.parentId = some x)).map (fun e => e.id)

lemma ahas_append_single {β : Type} (m : List (String × β)) (k j : String) (v : β) :
    ahas (m ++ [(k, v)]) j = (ahas m j || (j = k : Bool)) := by
  unfold ahas
  rw [alookup_append_single]
  cases hv : alookup m j with
  | some v0 => simp
  | none =>
    by_cases hj : j = k <;> simp [hj]

lemma foldl_createStep_objects (es : List ExportEntry) :
    ∀ acc : World, (∀ e ∈ es, ahas acc.objects e.id = false) →
      (es.map (fun e => e.id)).Nodup →
      (es.foldl importCreateStep acc).objects
        = acc.objects ++ es.map (fun e => (e.id, freshOf e)) := by
  induction es with
  | nil => intro acc _ _; simp
  | cons e rest ih =>
    intro acc hno hnd
    rw [List.foldl_cons]
    have hstep : (importCreateStep acc e).objects = acc.objects ++ [(e.id, freshOf e)] := by
      show aset acc.objects e.id (freshOf e) = _
      unfold aset
      rw [if_neg (by rw [hno e (by simp)]; simp)]
    have hno2 : ∀ e2 ∈ rest, ahas (importCreateStep acc e).objects e2.id = false := by
      intro e2 he2
      rw [hstep, ahas_append_single]
      rw [hno e2 (by simp [he2])]
      have hne : e2.id ≠ e.id := by
        rw [List.map_cons, List.nodup_cons] at hnd
        intro hh
        exact hnd.1 (hh ▸ List.mem_map.mpr ⟨e2, he2, rfl⟩)
      simp [hne]
    have hnd2 : (rest.map (fun e => e.id)).Nodup := by
      rw [List.map_cons, List.nodup_cons] at hnd
      exact hnd.2
    rw [ih (importCreateStep acc e) hno2 hnd2, hstep]
    simp

lemma alookup_map_fresh (es : List ExportEntry) (x : String) (o : WorldObject)
    (h : alookup (es.map (fun e => (e.id, freshOf e))) x = some o) :
    ∃ e ∈ es, e.id = x ∧ o = freshOf e := by
  have hmem := mem_of_alookup_eq_some _ x o h
  obtain ⟨e, he, heq⟩ := List.mem_map.mp hmem
  refine ⟨e, he, ?_, ?_⟩
  · exact congrArg Prod.fst heq
  · exact (congrArg Prod.snd heq).symm

lemma alookup_map_fresh_of_mem (es : List ExportEntry) (e : ExportEntry)
    (hnd : (es.map (fun e2 => e2.id)).Nodup) (he : e ∈ es) :
    alookup (es.map (fun e2 => (e2.id, freshOf e2))) e.id = some (freshOf e) := by
  apply alookup_eq_some_of_mem_nodup
  · rw [List.map_map]
    have : (Prod.fst ∘ fun e2 => (e2.id, freshOf e2)) = fun e2 => e2.id := rfl
    rw [this]
    exact hnd
  · exact List.mem_map.mpr ⟨e, he, rfl⟩

lemma importLink_go (B : String → Option WorldObject) :
    ∀ (rest done : List ExportEntry) (acc : World),
      (∀ y, mapGet acc y = (B y).map (fun o =>
        { o with parent := paOf done y, containedObjects := caOf done y })) →
      (((done ++ rest).map (fun e2 => e2.id)).Nodup) →
      (∀ e2 ∈ rest, (B e2.id).isSome = true ∧
        (∀ p, e2.parentId = some p → (B p).isSome = true)) →
      ∀ x, mapGet (rest.foldl importLinkStep acc) x
        = (B x).map (fun o =>
            { o with parent := paOf (done ++ rest) x,
                     containedObjects := caOf (done ++ rest) x }) := by
  intro rest
  induction rest with
  | nil =>
    intro done acc hP _ _ x
    rw [List.foldl_nil, List.append_nil]
    exact hP x
  | cons e rest ih =>
    intro done acc hP hnd hpres x
    rw [List.foldl_cons]
    have hassoc : done ++ e :: rest = (done ++ [e]) ++ rest := by simp
    have hnd' : (((done ++ [e]) ++ rest).map (fun e2 => e2.id)).Nodup := by
      rw [← hassoc]
      exact hnd
    have hndsplit := List.nodup_append.mp (by rw [List.map_append] at hnd; exact hnd)
    have heNotDone : ∀ e0 ∈ done, e0.id ≠ e.id := by
      intro e0 he0 hh
      exact hndsplit.2.2 (List.mem_map.mpr ⟨e0, he0, rfl⟩) (by rw [hh]; simp)
    have hpres' : ∀ e2 ∈ rest, (B e2.id).isSome = true ∧
        (∀ p, e2.parentId = some p → (B p).isSome = true) :=
      fun e2 he2 => hpres e2 (List.mem_cons_of_mem e he2)
    cases hep : e.parentId with
    | none =>
      have hstep : importLinkStep acc e = acc := by
        unfold importLinkStep
        rw [hep]
      rw [hstep]
      have hP' : ∀ y, mapGet acc y = (B y).map (fun o =>
          { o with parent := paOf (done ++ [e]) y,
                   containedObjects := caOf (done ++ [e]) y }) := by
        intro y
        rw [hP y]
        have hpa : paOf (done ++ [e]) y = paOf done y := by
          unfold paOf entryFind
          rw [List.find?_append]
          cases hf : done.find? (fun e2 => decide (e2.id = y)) with
          | some e0 => rfl
          | none =>
            by_cases hey : e.id = y
            · simp [List.find?, hey, hep]
            · simp [List.find?, hey]
        have hca : caOf (done ++ [e]) y = caOf done y := by
          unfold caOf
          rw [List.filter_append]
          have hone : [e].filter (fun e2 => decide (e2.parentId = some y)) = [] := by
            simp [List.filter, hep]
          rw [hone]
          simp
        rw [hpa, hca]
      have hres := ih (done ++ [e]) acc hP' hnd' hpres' x
      rw [hassoc]
      exact hres
    | some p =>
      have hpresE := hpres e (by simp)
      have hBe : (B e.id).isSome = true := hpresE.1
      have hBp : (B p).isSome = true := hpresE.2 p hep
      obtain ⟨oe, hBe2⟩ := Option.isSome_iff_exists.mp hBe
      obtain ⟨op, hBp2⟩ := Option.isSome_iff_exists.mp hBp
      have hfdone : done.find? (fun e2 => decide (e2.id = e.id)) = none := by
        cases hf : done.find? (fun e2 => decide (e2.id = e.id)) with
        | none => rfl
        | some e0 =>
          have hpred := List.find?_some hf
          have hmem2 := List.mem_of_find?_eq_some hf
          have : e0.id = e.id := by simpa using hpred
          exact absurd this (heNotDone e0 hmem2)
      have hgetE : mapGet acc e.id
          = some { oe with parent := paOf done e.id, containedObjects := caOf done e.id } := by
        rw [hP, hBe2]
        rfl
      have hgetP : mapGet acc p
          = some { op with parent := paOf done p, containedObjects := caOf done p } := by
        rw [hP, hBp2]
        rfl
      have hstep : importLinkStep acc e = World.addChild acc p e.id := by
        unfold importLinkStep
        rw [hep]
        dsimp only
        rw [if_pos (by rw [hgetE, hgetP]; rfl)]
      rw [hstep]
      have hdet : DetachedG acc e.id := by
        intro q po hq hin
        rw [hP q] at hq
        obtain ⟨o0, hB0, ho⟩ := Option.map_eq_some'.mp hq
        subst ho
        have hin2 : e.id ∈ caOf done q := hin
        unfold caOf at hin2
        obtain ⟨e0, he0, hid0⟩ := List.mem_map.mp hin2
        exact heNotDone e0 (List.mem_of_mem_filter he0) hid0
      have hchar := mapGet_addChild_of_detached acc p e.id hdet
      have hP' : ∀ y, mapGet (World.addChild acc p e.id) y = (B y).map (fun o =>
          { o with parent := paOf (done ++ [e]) y,
                   containedObjects := caOf (done ++ [e]) y }) := by
        intro y
        rw [hchar y, hP y, Option.map_map]
        have hpa : paOf (done ++ [e]) y = (if y = e.id then some p else paOf done y) := by
          unfold paOf entryFind
          rw [List.find?_append]
          by_cases hy : y = e.id
          · rw [if_pos hy, hy, hfdone]
            simp [List.find?, hep]
          · rw [if_neg hy]
            cases hf : done.find? (fun e2 => decide (e2.id = y)) with
            | some e0 => rfl
            | none =>
              have hne : ¬ (e.id = y) := fun hh => hy hh.symm
              simp [List.find?, hne]
        have hca : caOf (done ++ [e]) y
            = (if y = p then caOf done y ++ [e.id] else caOf done y) := by
          unfold caOf
          rw [List.filter_append]
          by_cases hy : y = p
          · rw [if_pos hy]
            have hone : [e].filter (fun e2 => decide (e2.parentId = some y)) = [e] := by
              simp [List.filter, hep, hy]
            rw [hone]
            simp
          · rw [if_neg hy]
            have hone : [e].filter (fun e2 => decide (e2.parentId = some y)) = [] := by
              have hne : ¬ (some p = some y) := fun hh => hy (Option.some.inj hh).symm
              simp [List.filter, hep, hne]
            rw [hone]
            simp
        rw [hpa, hca]
        cases hBy : B y with
        | none => rfl
        | some o0 =>
          simp only [Option.map_some', Function.comp]
      have hres := ih (done ++ [e]) (World.addChild acc p e.id) hP' hnd' hpres' x
      rw [hassoc]
      exact hres

lemma simulationTime_removeChild (w : World) (p c : String) :
    (World.removeChild w p c).simulationTime = w.simulationTime := by
  unfold World.removeChild
  by_cases h : c ∈ childrenOf w p
  · rw [if_pos h]
    rfl
  · rw [if_neg h]

lemma simulationTime_addChild (w : World) (p c : String) :
    (World.addChild w p c).simulationTime = w.simulationTime := by
  show (updObj (updObj (addChildPre w c) _ _) _ _).simulationTime = w.simulationTime
  rw [simulationTime_updObj, simulationTime_updObj]
  unfold addChildPre
  cases (mapGet w c).bind (fun o => o.parent) with
  | none => rfl
  | some oldp => exact simulationTime_removeChild w oldp c

lemma rootObject_linkStep (acc : World) (e : ExportEntry) :
    (importLinkStep acc e).rootObject = acc.rootObject := by
  unfold importLinkStep
  cases hp : e.parentId with
  | none => rfl
  | some p =>
    dsimp only
    by_cases hg2 : ((mapGet acc e.id).isSome && (mapGet acc p).isSome) = true
    · rw [if_pos hg2, rootObject_addChild]
    · rw [if_neg hg2]

lemma simulationTime_linkStep (acc : World) (e : ExportEntry) :
    (importLinkStep acc e).simulationTime = acc.simulationTime := by
  unfold importLinkStep
  cases hp : e.parentId with
  | none => rfl
  | some p =>
    dsimp only
    by_cases hg2 : ((mapGet acc e.id).isSome && (mapGet acc p).isSome) = true
    · rw [if_pos hg2, simulationTime_addChild]
    · rw [if_neg hg2]

lemma rootObject_foldl_createStep (es : List ExportEntry) :
    ∀ acc : World, (es.foldl importCreateStep acc).rootObject = acc.rootObject := by
  induction es with
  | nil => intro acc; rfl
  | cons e rest ih =>
    intro acc
    rw [List.foldl_cons, ih]
    rfl

lemma simulationTime_foldl_createStep (es : List ExportEntry) :
    ∀ acc : World, (es.foldl importCreateStep acc).simulationTime = acc.simulationTime := by
  induction es with
  | nil => intro acc; rfl
  | cons e rest ih =>
    intro acc
    rw [List.foldl_cons, ih]
    rfl

lemma rootObject_foldl_linkStep (es : List ExportEntry) :
    ∀ acc : World, (es.foldl importLinkStep acc).rootObject = acc.rootObject := by
  induction es with
  | nil => intro acc; rfl
  | cons e rest ih =>
    intro acc
    rw [List.foldl_cons, ih, rootObject_linkStep]

lemma simulationTime_foldl_linkStep (es : List ExportEntry) :
    ∀ acc : World, (es.foldl importLinkStep acc).simulationTime = acc.simulationTime := by
  induction es with
  | nil => intro acc; rfl
  | cons e rest ih =>
    intro acc
    rw [List.foldl_cons, ih, simulationTime_linkStep]

lemma export_ids (w : World) (h : ContainedE w) :
    (World.exportData w).objects.map (fun e => e.id) = keys w := by
  unfold World.exportData keys
  dsimp only
  rw [List.map_map]
  exact List.map_congr_left (fun p hp => h.2.1 p hp)

lemma entryFind_of_mem_nodup (es : List ExportEntry) (e : ExportEntry)
    (hnd : (es.map (fun e2 => e2.id)).Nodup) (he : e ∈ es) :
    entryFind es e.id = some e := by
  induction es with
  | nil => simp at he
  | cons b rest ih =>
    rw [List.map_cons, List.nodup_cons] at hnd
    rcases List.mem_cons.mp he with h1 | h1
    · subst h1
      simp [entryFind, List.find?]
    · have hne : b.id ≠ e.id := by
        intro hh
        exact hnd.1 (hh ▸ List.mem_map.mpr ⟨e, h1, rfl⟩)
      have hrec := ih hnd.2 h1
      unfold entryFind at hrec ⊢
      simp [List.find?, hne, hrec]

/-- The store produced by import's first pass on an exported snapshot. -/
def exportStore (w : World) : List (String × WorldObject) :=
  (World.exportData w).objects.map (fun e => (e.id, freshOf e))

lemma exportStore_some (w : World) (h : ContainedE w) (x : String) (o : WorldObject)
    (hg : mapGet w x = some o) :
    alookup (exportStore w) x
      = some ⟨x, o.name, o.description, none, [], o.relationships⟩ := by
  have hmem : (x, o) ∈ w.objects := mem_of_alookup_eq_some w.objects x o hg
  have hid : o.id = x := h.2.1 (x, o) hmem
  have hEm : (⟨o.id, o.name, o.description, o.parent, o.relationships⟩ : ExportEntry)
      ∈ (World.exportData w).objects :=
    List.mem_map.mpr ⟨(x, o), hmem, rfl⟩
  have hnd : ((World.exportData w).objects.map (fun e2 => e2.id)).Nodup := by
    rw [export_ids w h]
    exact h.1
  have hlem := alookup_map_fresh_of_mem (World.exportData w).objects _ hnd hEm
  unfold exportStore
  rw [← hid]
  exact hlem

lemma exportStore_none (w : World) (h : ContainedE w) (x : String)
    (hg : mapGet w x = none) :
    alookup (exportStore w) x = none := by
  cases hv : alookup (exportStore w) x with
  | none => rfl
  | some fo =>
    have hmem := mem_of_alookup_eq_some _ x fo hv
    have hx : x ∈ (exportStore w).map Prod.fst := List.mem_map.mpr ⟨(x, fo), hmem, rfl⟩
    have hkeys : (exportStore w).map Prod.fst = keys w := by
      unfold exportStore
      rw [List.map_map]
      have hcomp : (Prod.fst ∘ fun e2 => (e2.id, freshOf e2)) = fun e2 => e2.id := rfl
      rw [hcomp]
      exact export_ids w h
    rw [hkeys] at hx
    have hs : (alookup w.objects x).isSome = true :=
      (alookup_isSome_iff_mem w.objects x).mpr hx
    rw [(show mapGet w x = alookup w.objects x from rfl)] at hg
    rw [hg] at hs
    simp at hs

lemma paOf_export (w : World) (h : ContainedE w) (x : String) (o : WorldObject)
    (hg : mapGet w x = some o) :
    paOf (World.exportData w).objects x = o.parent := by
  have hmem : (x, o) ∈ w.objects := mem_of_alookup_eq_some w.objects x o hg
  have hid : o.id = x := h.2.1 (x, o) hmem
  have hEm : (⟨o.id, o.name, o.description, o.parent, o.relationships⟩ : ExportEntry)
      ∈ (World.exportData w).objects :=
    List.mem_map.mpr ⟨(x, o), hmem, rfl⟩
  have hnd : ((World.exportData w).objects.map (fun e2 => e2.id)).Nodup := by
    rw [export_ids w h]
    exact h.1
  have hfind : entryFind (World.exportData w).objects o.id
      = some ⟨o.id, o.name, o.description, o.parent, o.relationships⟩ :=
    entryFind_of_mem_nodup (World.exportData w).objects _ hnd hEm
  unfold paOf
  rw [← hid, hfind]

lemma caOf_export_mem (w : World) (h : ContainedE w) (x : String) (o : WorldObject)
    (hg : mapGet w x = some o) (c : String) :
    c ∈ caOf (World.exportData w).objects x ↔ c ∈ o.containedObjects := by
  have hG := (containedE_iff_G w).mp h
  constructor
  · intro hc
    unfold caOf at hc
    obtain ⟨e, hef, hid⟩ := List.mem_map.mp hc
    have hemem := List.mem_of_mem_filter hef
    have hpe : e.parentId = some x := by
      have hp := List.of_mem_filter hef
      simpa using hp
    obtain ⟨p2, hp2, he2⟩ := List.mem_map.mp hemem
    have hgc : mapGet w p2.1 = some p2.2 :=
      alookup_eq_some_of_mem_nodup w.objects p2.1 p2.2 hG.1 (by cases p2; exact hp2)
    have hidp : p2.2.id = p2.1 := h.2.1 p2 hp2
    have hc1 : p2.2.id = c := by
      rw [← he2] at hid
      simpa using hid
    have hpar : p2.2.parent = some x := by
      rw [← he2] at hpe
      simpa using hpe
    rw [hidp] at hc1
    rw [hc1] at hgc
    exact (hG.2.2.2.2.2 c p2.2 x o hgc hg).mpr hpar
  · intro hc
    have hsome := hG.2.2.2.1 x o c hg hc
    obtain ⟨oc, hoc⟩ := Option.isSome_iff_exists.mp hsome
    have hocid : oc.id = c := hG.2.1 c oc hoc
    have hpar : oc.parent = some x := (hG.2.2.2.2.2 c oc x o hoc hg).mp hc
    have hmem : (c, oc) ∈ w.objects := mem_of_alookup_eq_some w.objects c oc hoc
    have hEm : (⟨oc.id, oc.name, oc.description, oc.parent, oc.relationships⟩ : ExportEntry)
        ∈ (World.exportData w).objects :=
      List.mem_map.mpr ⟨(c, oc), hmem, rfl⟩
    unfold caOf
    apply List.mem_map.mpr
    refine ⟨⟨oc.id, oc.name, oc.description, oc.parent, oc.relationships⟩, ?_, hocid⟩
    apply List.mem_filter.mpr
    refine ⟨hEm, ?_⟩
    simp [hpar]

lemma importData_get (w : World) (d : ExportData) (x : String) :
    mapGet (World.importData w d) x
      = mapGet (d.objects.foldl importLinkStep (d.objects.foldl importCreateStep
          { w with objects := [], simulationTime := d.simulationTime })) x := by
  unfold World.importData
  cases hr : d.rootObjectId with
  | none => rfl
  | some rid => rfl

lemma importData_root_none (w : World) (d : ExportData) (h : d.rootObjectId = none) :
    (World.importData w d).rootObject = w.rootObject := by
  unfold World.importData
  rw [h]
  dsimp only
  rw [rootObject_foldl_linkStep, rootObject_foldl_createStep]

lemma importData_root_some (w : World) (d : ExportData) (rid : String)
    (h : d.rootObjectId = some rid)
    (hm : mapHas (d.objects.foldl importLinkStep (d.objects.foldl importCreateStep
      { w with objects := [], simulationTime := d.simulationTime })) rid = true) :
    (World.importData w d).rootObject = some rid := by
  unfold World.importData
  rw [h]
  dsimp only
  rw [if_pos hm]

lemma importData_time (w : World) (d : ExportData) :
    (World.importData w d).simulationTime = d.simulationTime := by
  unfold World.importData
  cases hr : d.rootObjectId with
  | none =>
    dsimp only
    rw [simulationTime_foldl_linkStep, simulationTime_foldl_createStep]
  | some rid =>
    dsimp only
    show (d.objects.foldl importLinkStep _).simulationTime = d.simulationTime
    rw [simulationTime_foldl_linkStep, simulationTime_foldl_createStep]

lemma importData_export_get (w : World) (h : World.Consistent w) :
    ∀ x, mapGet (World.importData w (World.exportData w)) x
      = (mapGet w x).map (fun o =>
          { o with containedObjects := caOf (World.exportData w).objects x }) := by
  obtain ⟨hE, hroot⟩ := h
  have hG := (containedE_iff_G w).mp hE
  have hndE : ((World.exportData w).objects.map (fun e2 => e2.id)).Nodup := by
    rw [export_ids w hE]
    exact hE.1
  have hP0 : ∀ y, mapGet ((World.exportData w).objects.foldl importCreateStep
        { w with objects := [], simulationTime := (World.exportData w).simulationTime }) y
      = (alookup (exportStore w) y).map (fun o =>
          { o with parent := paOf ([] : List ExportEntry) y,
                   containedObjects := caOf ([] : List ExportEntry) y }) := by
    intro y
    have hw1 := foldl_createStep_objects (World.exportData w).objects
        { w with objects := [], simulationTime := (World.exportData w).simulationTime }
        (fun e _ => rfl) hndE
    have hw1b : ((World.exportData w).objects.foldl importCreateStep
          { w with objects := [],
                   simulationTime := (World.exportData w).simulationTime }).objects
        = exportStore w := by
      rw [hw1]
      rfl
    unfold mapGet
    rw [hw1b]
    cases hv : alookup (exportStore w) y with
    | none => rfl
    | some fo =>
      obtain ⟨e, he, hid2, hfo⟩ := alookup_map_fresh _ y fo (by
        have hv2 : alookup ((World.exportData w).objects.map
            (fun e2 => (e2.id, freshOf e2))) y = some fo := hv
        exact hv2)
      subst hfo
      rfl
  have hpres : ∀ e2 ∈ (World.exportData w).objects,
      (alookup (exportStore w) e2.id).isSome = true ∧
      (∀ p, e2.parentId = some p → (alookup (exportStore w) p).isSome = true) := by
    intro e2 he2
    constructor
    · have hlem := alookup_map_fresh_of_mem (World.exportData w).objects e2 hndE he2
      have hlem2 : alookup (exportStore w) e2.id = some (freshOf e2) := hlem
      rw [hlem2]
      rfl
    · intro p hp
      obtain ⟨p2, hp2, hpe⟩ := List.mem_map.mp he2
      have hgc : mapGet w p2.1 = some p2.2 :=
        alookup_eq_some_of_mem_nodup w.objects p2.1 p2.2 hG.1 (by cases p2; exact hp2)
      have hpar : p2.2.parent = some p := by
        rw [← hpe] at hp
        simpa using hp
      have hsome := hG.2.2.2.2.1 p2.1 p2.2 p hgc hpar
      obtain ⟨op, hop⟩ := Option.isSome_iff_exists.mp hsome
      rw [exportStore_some w hE p op hop]
      rfl
  have hlink := importLink_go (fun y => alookup (exportStore w) y)
      (World.exportData w).objects []
      ((World.exportData w).objects.foldl importCreateStep
        { w with objects := [], simulationTime := (World.exportData w).simulationTime })
      hP0 hndE hpres
  simp only [List.nil_append] at hlink
  intro x
  have hid : ∀ o, mapGet w x = some o → o.id = x := fun o hg => hG.2.1 x o hg
  rw [importData_get w (World.exportData w) x, hlink x]
  cases hg : mapGet w x with
  | none =>
    rw [exportStore_none w hE x hg]
    rfl
  | some o =>
    rw [exportStore_some w hE x o hg]
    simp only [Option.map_some']
    rw [paOf_export w hE x o hg, hid o hg]

/-- C9: on every consistent world (in particular any tree-shaped world such
as a 5-entity tree with 2 relationship edges), `export()` followed by
`import()` of the exported data reproduces an isomorphic world: the same
entities are present, each with the same parent, name, description and
relationship list and the same set of contained children, and the root
designation and turn counter are preserved.  The second linking pass makes
entry order irrelevant: every parent reference resolves because pass one
created all entities first. -/
theorem vivarium_C9_roundtrip (w : World) (h : World.Consistent w) :
    (∀ x, (mapGet (World.importData w (World.exportData w)) x).isSome
        = (mapGet w x).isSome) ∧
    (∀ x o o2, mapGet w x = some o →
      mapGet (World.importData w (World.exportData w)) x = some o2 →
      o2.parent = o.parent ∧ o2.name = o.name ∧ o2.description = o.description ∧
      o2.relationships = o.relationships ∧
      (∀ c, c ∈ o2.containedObjects ↔ c ∈ o.containedObjects)) ∧
    (World.importData w (World.exportData w)).rootObject = w.rootObject ∧
    (World.importData w (World.exportData w)).simulationTime = w.simulationTime := by
  have hchar := importData_export_get w h
  have hdr : (World.exportData w).rootObjectId = w.rootObject := rfl
  refine ⟨?_, ?_, ?_, ?_⟩
  · intro x
    rw [hchar x]
    cases mapGet w x <;> rfl
  · intro x o o2 hg hg2
    rw [hchar x, hg] at hg2
    simp only [Option.map_some'] at hg2
    have ho2 : o2 = { o with containedObjects := caOf (World.exportData w).objects x } :=
      (Option.some.inj hg2).symm
    subst ho2
    refine ⟨rfl, rfl, rfl, rfl, ?_⟩
    intro c
    exact caOf_export_mem w h.1 x o hg c
  · cases hr : w.rootObject with
    | none =>
      rw [importData_root_none w (World.exportData w) (hdr.trans hr), hr]
    | some rid =>
      have hkey : rid ∈ keys w := (rootOk_iff w).mp h.2 rid hr
      have hsome : (mapGet w rid).isSome = true :=
        (alookup_isSome_iff_mem w.objects rid).mpr hkey
      obtain ⟨o, hg⟩ := Option.isSome_iff_exists.mp hsome
      have hm : mapHas ((World.exportData w).objects.foldl importLinkStep
          ((World.exportData w).objects.foldl importCreateStep
            { w with objects := [],
                     simulationTime := (World.exportData w).simulationTime })) rid = true := by
        have h2 := importData_get w (World.exportData w) rid
        show (mapGet ((World.exportData w).objects.foldl importLinkStep
            ((World.exportData w).objects.foldl importCreateStep
              { w with objects := [],
                       simulationTime := (World.exportData w).simulationTime })) rid).isSome
          = true
        rw [← h2, hchar rid, hg]
        rfl
      rw [importData_root_some w (World.exportData w) rid (hdr.trans hr) hm]
  · rw [importData_time w (World.exportData w)]
    rfl

/-- A consistent 5-entity tree with 2 relationship edges, exercising the
round-trip claim on a concrete world. -/
def c9World : World :=
  { objects :=
      [("ocean", ⟨"ocean", "Ocean", "open water", none, ["island_1", "boat_1"], []⟩),
       ("island_1", ⟨"island_1", "Island", "a sandy island", some "ocean", ["hut_1"], []⟩),
       ("boat_1", ⟨"boat_1", "Boat", "a small boat", some "ocean", ["sam"],
         [⟨"docked_at", "island_1", some 1, some 1, some 1, some 1⟩]⟩),
       ("hut_1", ⟨"hut_1", "Hut", "a driftwood hut", some "island_1", [], []⟩),
       ("sam", ⟨"sam", "Sam", "a sailor", some "boat_1", [],
         [⟨"watches", "hut_1", none, none, none, none⟩]⟩)],
    rootObject := some "ocean",
    simulationTime := 7,
    playerObjectId := some "sam" }

theorem vivarium_C9_witness :
    World.Consistent c9World ∧
    (World.importData c9World (World.exportData c9World)).rootObject = some "ocean" ∧
    (World.importData c9World (World.exportData c9World)).simulationTime = 7 := by
  have hc : World.Consistent c9World := by
    constructor
    · unfold ContainedE
      decide
    · unfold RootOk
      decide
  refine ⟨hc, ?_, ?_⟩
  · rw [(vivarium_C9_roundtrip c9World hc).2.2.1]
    rfl
  · rw [(vivarium_C9_roundtrip c9World hc).2.2.2]
    rfl

/-- C10: creating an object whose id already exists returns `null` and
leaves the world completely unchanged. -/
theorem vivarium_C10_duplicate_create (w : World) (id n d : String) (pid : Option String)
    (h : mapHas w id = true) :
    World.createObject w id n d pid = (none, w) := by
  simp [World.createObject, h]

/-- Witness for C10: re-creating `"sam"` in the starting scenario. -/
theorem vivarium_C10_witness :
    mapHas fixtureWorld "sam" = true ∧
    World.createObject fixtureWorld "sam" "Sam2" "An impostor." none = (none, fixtureWorld) := by
  have h : mapHas fixtureWorld "sam" = true := by rfl
  exact ⟨h, vivarium_C10_duplicate_create fixtureWorld "sam" "Sam2" "An impostor." none h⟩

end Vivarium
